import Mathlib

/-!
The Vault PKI certificate provider of go-vault-autocert.

A shallow embedding of `provider.go` (package `vac`) and the properties of its
renewal engine.

Conventions of the embedding:

* `time.Time` is an instant in nanoseconds (`Int`); `time.Duration` is a signed
  64-bit count of nanoseconds, with Go's wrap-around on overflow made explicit.
* `float32` values are the rationals they denote; arithmetic on them is the exact
  operation followed by IEEE 754 binary32 round-to-nearest-even.
* A Go panic is an explicit outcome carrying the panic message.
* Each method call is one atomic step on the `pki` value; the reply of the
  network, the readings of the clock and the X.509 parser are inputs of the step.
* A `*tls.Certificate` is an address together with the value stored there;
  `updateCert` allocates the addresses in increasing order.
-/

set_option linter.dupNamespace false

namespace vac

/-! ## Machine numbers -/

/-- Signed 64-bit wrap-around: the value an `int64` holds after an operation
whose exact result is `n`. -/
def wrapInt64 (n : Int) : Int :=
  (n + 2 ^ 63) % 2 ^ 64 - 2 ^ 63

/-- Rounding of a rational to the nearest integer, ties to the even one. -/
def roundHalfEven (q : ℚ) : Int :=
  if q - ⌊q⌋ < 1 / 2 then ⌊q⌋
  else if 1 / 2 < q - ⌊q⌋ then ⌊q⌋ + 1
  else if ⌊q⌋ % 2 = 0 then ⌊q⌋ else ⌊q⌋ + 1

/-- Exponent of the binary32 unit in the last place at a positive rational `x`:
24 significant bits for normal numbers, `2 ^ (-149)` in the subnormal range. -/
def ulpExp (x : ℚ) : Int :=
  max (Int.log 2 x - 23) (-149)

/-- IEEE 754 binary32 round-to-nearest-even of a rational, for magnitudes below
the overflow threshold `2 ^ 128` (the values `updateCert` reaches from a 64-bit
lease duration and a modifier of magnitude at most one stay below `2 ^ 64`). -/
def roundF32 (x : ℚ) : ℚ :=
  if x = 0 then 0
  else if 0 < x then (roundHalfEven (x / (2 : ℚ) ^ ulpExp x) : ℚ) * (2 : ℚ) ^ ulpExp x
  else -((roundHalfEven (-x / (2 : ℚ) ^ ulpExp (-x)) : ℚ) * (2 : ℚ) ^ ulpExp (-x))

/-- Conversion `float32(n)` of a Go `int`. -/
def float32OfInt (n : Int) : ℚ :=
  roundF32 (n : ℚ)

/-- Product of two `float32` values. -/
def mulF32 (a b : ℚ) : ℚ :=
  roundF32 (a * b)

/-- Conversion `int(f)` of a `float32` whose integer part lies within the range
of `int`: the fraction is discarded (truncation towards zero). Outside that range
the result of the Go conversion is implementation-dependent and is not modelled;
statements about the value of an interval carry the range as a hypothesis. -/
def intOfFloat (f : ℚ) : Int :=
  if 0 ≤ f then ⌊f⌋ else ⌈f⌉

/-! ## Time -/

/-- An instant of `time.Time`, in nanoseconds. -/
abbrev Time := Int

/-- A `time.Duration`: nanoseconds in a signed 64-bit integer. -/
abbrev Duration := Int

/-- The constant `time.Second`. -/
def Second : Duration := 1000000000

/-- The expression `time.Second * time.Duration(n)`. -/
def seconds (n : Int) : Duration :=
  wrapInt64 (Second * wrapInt64 n)

/-- The zero `time.Time` (January 1, year 1), as nanoseconds before the Unix epoch. -/
def zeroTime : Time := -62135596800 * 1000000000

/-! ## Data -/

/-- A value held in an `interface{}`: a string, or a value of another dynamic
type (named by `dynType`). The nil interface is the absence of a value. -/
inductive Value where
  | str (s : String)
  | other (dynType : String)
deriving DecidableEq, Repr

/-- A `map[string]interface{}`. -/
abbrev Data := List (String × Value)

/-- The type assertion `v.(string)` on the result of a map lookup: it yields the
string, or panics with the runtime's message. -/
def assertString : Option Value → Except String String
  | some (Value.str s) => Except.ok s
  | some (Value.other t) =>
      Except.error ("interface conversion: interface {} is " ++ t ++ ", not string")
  | none => Except.error "interface conversion: interface {} is nil, not string"

/-- The fields of `api.Secret` that the provider reads. -/
structure Secret where
  LeaseDuration : Int
  Data : Data
deriving DecidableEq, Repr

/-- What `client.Logical().Write` hands back: a transport or API error, a nil
secret without error, or a secret. -/
abbrev Reply := Except String (Option Secret)

/-- A parsed `tls.Certificate`: the DER blocks of the chain and the private key. -/
structure Certificate where
  Certificate : List String
  PrivateKey : String
deriving DecidableEq, Repr

/-- A `*tls.Certificate`: the address of the record and the record found there. -/
structure CertRef where
  addr : Nat
  val : Certificate
deriving DecidableEq, Repr

/-- The argument of the `GetCertificate` hook. -/
structure ClientHelloInfo where
  ServerName : String
deriving DecidableEq, Repr

/-- The Vault API client: its address and token, and the log of the writes sent
through it (path and body of each request). -/
structure Client where
  address : String
  token : String
  writes : List (String × Data)
deriving DecidableEq, Repr

/-- Method `SetToken` of the client. -/
def Client.SetToken (cl : Client) (t : String) : Client :=
  { cl with token := t }

/-- The request side of `cl.Logical().Write(path, data)`. -/
def Client.Write (cl : Client) (path : String) (data : Data) : Client :=
  { cl with writes := cl.writes ++ [(path, data)] }

/-- State of a `sync.RWMutex`: whether the write lock is held and how many read
locks are held. -/
structure RWMutex where
  w : Bool
  r : Nat
deriving DecidableEq, Repr

/-- The struct `pki`. The context `ctx` is represented by the `done` event of the
background task; `allocs` counts the certificate records allocated so far. -/
structure pki where
  mu : RWMutex
  cert : Option CertRef
  client : Client
  timer : Option Duration
  expiresAt : Time
  path : String
  data : Data
  renewModifier : ℚ
  retryDelay : Duration
  allocs : Nat
deriving DecidableEq

/-- Method `RLock` of the embedded mutex. -/
def pki.RLock (p : pki) : pki :=
  { p with mu := { p.mu with r := p.mu.r + 1 } }

/-- Method `RUnlock` of the embedded mutex. -/
def pki.RUnlock (p : pki) : pki :=
  { p with mu := { p.mu with r := p.mu.r - 1 } }

/-- Method `Lock` of the embedded mutex. -/
def pki.Lock (p : pki) : pki :=
  { p with mu := { p.mu with w := true } }

/-- Method `Unlock` of the embedded mutex. -/
def pki.Unlock (p : pki) : pki :=
  { p with mu := { p.mu with w := false } }

/-- The struct `VaultPKIConfig`. -/
structure VaultPKIConfig where
  Address : String
  Token : String
  Path : String
  Role : String
  CN : String
  AdvertisedIPs : List String
  RenewModifier : ℚ
  RetryDelay : Duration
deriving DecidableEq

/-! ## Operations -/

/-- Method `getCertificate`: the state after the call and the pair
`(*tls.Certificate, error)` it returns. -/
def getCertificate (p : pki) (_chi : Option ClientHelloInfo) :
    pki × Option CertRef × Option String :=
  let p := p.RLock
  if p.cert = none then
    let p := p.RUnlock
    (p, none, some "certificate not loaded")
  else
    let p := p.RUnlock
    (p, p.cert, none)

/-- Outcome of a call that returns `(value, error)` and may panic, with the state
it leaves behind. -/
inductive Step (α : Type) where
  | ok (v : α) (p : pki)
  | error (e : String) (p : pki)
  | panic (msg : String) (p : pki)

/-- The interval `updateCert` derives from a lease duration:
`int(float32(LeaseDuration) * renewModifier)`. -/
def renewAfter (leaseDuration : Int) (renewModifier : ℚ) : Int :=
  intOfFloat (mulF32 (float32OfInt leaseDuration) renewModifier)

/-- Method `updateCert`. `reply` is what the write to Vault returns and `now` the
reading of `time.Now()`; `X509KeyPair` is `tls.X509KeyPair`. -/
def updateCert (X509KeyPair : String → String → Except String Certificate)
    (p : pki) (reply : Reply) (now : Time) : Step Duration :=
  let p := { p with client := p.client.Write p.path p.data }
  match reply with
  | Except.error err => Step.error err p
  | Except.ok none => Step.error "got empty response fro vault" p
  | Except.ok (some s) =>
    match assertString (s.Data.lookup "issuing_ca") with
    | Except.error msg => Step.panic msg p
    | Except.ok ca =>
    match assertString (s.Data.lookup "certificate") with
    | Except.error msg => Step.panic msg p
    | Except.ok crt =>
    let chain := crt ++ "\n" ++ ca
    match assertString (s.Data.lookup "private_key") with
    | Except.error msg => Step.panic msg p
    | Except.ok key =>
    match X509KeyPair chain key with
    | Except.error err => Step.error err p
    | Except.ok c =>
      let p := p.Lock
      let p := { p with cert := some ⟨p.allocs, c⟩, allocs := p.allocs + 1 }
      let p := { p with expiresAt := now + seconds s.LeaseDuration }
      let e := renewAfter s.LeaseDuration p.renewModifier
      Step.ok (seconds e) p.Unlock

/-- What wakes the `select` of the background task: the context is done, or the
timer fired. A timer wake-up carries the inputs of the attempt it triggers: the
reply of Vault, the clock reading inside `updateCert`, and the clock reading of
the expiry check made after a failure. -/
inductive Wake where
  | done
  | timer (reply : Reply) (now : Time) (nowCheck : Time)

/-- Where the goroutine `renewCertificate` stands: still in its loop, returned,
or panicked (which ends the process). -/
inductive Task where
  | looping (p : pki)
  | returned (p : pki)
  | panicked (msg : String) (p : pki)

/-- One iteration of the loop of `renewCertificate`. Entering the `select`
evaluates `p.timer.C`, which needs the timer to exist. -/
def renewIteration (X509KeyPair : String → String → Except String Certificate)
    (p : pki) (w : Wake) : Task :=
  match p.timer with
  | none => Task.panicked "runtime error: invalid memory address or nil pointer dereference" p
  | some _ =>
    match w with
    | Wake.done => Task.returned p
    | Wake.timer reply now nowCheck =>
      match updateCert X509KeyPair p reply now with
      | Step.panic msg p => Task.panicked msg p
      | Step.error _ p =>
        if nowCheck < p.expiresAt then
          Task.looping { p with timer := some p.retryDelay }
        else
          Task.panicked "get certificate retries exceeded" p
      | Step.ok d p => Task.looping { p with timer := some d }

/-- Method `renewCertificate`, run over the wake-ups that reach it. -/
def renewCertificate (X509KeyPair : String → String → Except String Certificate) :
    pki → List Wake → Task
  | p, [] => Task.looping p
  | p, w :: ws =>
    match renewIteration X509KeyPair p w with
    | Task.looping p => renewCertificate X509KeyPair p ws
    | t => t

/-- The constant `0.95` as a `float32`: the binary32 value nearest to it, the
default renewal modifier. -/
def f32_0_95 : ℚ := 15938355 / 16777216

/-- Result of `NewVaultPKIProvider`: a provider (with its background task
started), an error, or a panic. -/
inductive Constructed where
  | ok (p : pki)
  | error (e : String)
  | panic (msg : String)

/-- Function `NewVaultPKIProvider`. `NewClient` is `api.NewClient` applied to the
default configuration with the given address; `reply` and `now` are the inputs of
the first `updateCert`. -/
def NewVaultPKIProvider (X509KeyPair : String → String → Except String Certificate)
    (NewClient : String → Except String Client)
    (c : VaultPKIConfig) (reply : Reply) (now : Time) : Constructed :=
  let c := if c.Address = "" then { c with Address := "http://localhost:8200" } else c
  let c := if c.Path = "" then { c with CN := "pki" } else c
  let c := if c.RenewModifier = 0 then { c with RenewModifier := f32_0_95 } else c
  let c := if c.RetryDelay = 0 then { c with RetryDelay := Second * 30 } else c
  match NewClient c.Address with
  | Except.error err => Constructed.error err
  | Except.ok cl =>
    let cl := cl.SetToken c.Token
    let p : pki :=
      { mu := ⟨false, 0⟩
        cert := none
        client := cl
        timer := none
        expiresAt := zeroTime
        path := c.Path ++ "/issue/" ++ c.Role
        data := [("common_name", Value.str c.CN),
                 ("ip_sans", Value.str (String.intercalate "," c.AdvertisedIPs))]
        renewModifier := c.RenewModifier
        retryDelay := c.RetryDelay
        allocs := 0 }
    match updateCert X509KeyPair p reply now with
    | Step.error err _ => Constructed.error err
    | Step.panic msg _ => Constructed.panic msg
    | Step.ok expiresIn p => Constructed.ok { p with timer := some expiresIn }

/-- Whether the address of the installed record, if any, is one that `updateCert`
has already handed out. Every state the constructor or the renewal step produces
is of this kind. -/
def pki.Fresh (p : pki) : Bool :=
  match p.cert with
  | none => true
  | some r => decide (r.addr < p.allocs)

/-- Whether a call ended by returning a non-nil error. -/
def Step.isError {α : Type} : Step α → Bool
  | Step.error _ _ => true
  | _ => false

/-! ## The process around the engine -/

/-- An event in the life of the process: the background task wakes up, or a TLS
handshake calls the `GetCertificate` hook at the instant `now`. -/
inductive Event where
  | wake (w : Wake)
  | hello (chi : Option ClientHelloInfo) (now : Time)

/-- The process: where its background task stands, and the answers handshakes
have received so far, each with the instant of the call. -/
structure Process where
  task : Task
  served : List (Time × Option CertRef × Option String)

/-- One event of the process. A wake-up is consumed by the background task while
it loops. A handshake is answered by `getCertificate` as long as the process
lives; after a panic nothing is answered. -/
def Process.step (X509KeyPair : String → String → Except String Certificate)
    (pr : Process) : Event → Process
  | Event.wake w =>
    match pr.task with
    | Task.looping p => { pr with task := renewIteration X509KeyPair p w }
    | _ => pr
  | Event.hello chi now =>
    match pr.task with
    | Task.looping p =>
      { task := Task.looping (getCertificate p chi).1
        served := pr.served ++ [(now, (getCertificate p chi).2)] }
    | Task.returned p =>
      { task := Task.returned (getCertificate p chi).1
        served := pr.served ++ [(now, (getCertificate p chi).2)] }
    | Task.panicked _ _ => pr

/-- The process run over a sequence of events. -/
def Process.run (X509KeyPair : String → String → Except String Certificate) :
    Process → List Event → Process
  | pr, [] => pr
  | pr, e :: es => Process.run X509KeyPair (Process.step X509KeyPair pr e) es

/-- An event of a run in which every renewal attempt returns an error: a
handshake, or a timer wake-up whose attempt fails in whatever state it is made. -/
def Event.failing (X509KeyPair : String → String → Except String Certificate) : Event → Prop
  | Event.hello _ _ => True
  | Event.wake Wake.done => False
  | Event.wake (Wake.timer reply now _) => ∀ q, (updateCert X509KeyPair q reply now).isError = true

/-- Whether an event leaves the retries open: a handshake, or a wake-up whose
expiry check reads the clock strictly before `expiresAt`. -/
def Event.beforeExpiry (expiresAt : Time) : Event → Bool
  | Event.wake (Wake.timer _ _ nowCheck) => decide (nowCheck < expiresAt)
  | _ => true

/-- Whether a run contains a wake-up of the background task. -/
def rearmed : List Event → Bool
  | [] => false
  | Event.wake _ :: _ => true
  | Event.hello _ _ :: es => rearmed es

/-- The answers handshakes receive while the record `c` stays installed: each
call of the run, with its instant, is answered with `c` and a nil error. -/
def answers (c : CertRef) : List Event → List (Time × Option CertRef × Option String)
  | [] => []
  | Event.hello _ now :: es => (now, some c, none) :: answers c es
  | Event.wake _ :: es => answers c es

/-- Whether a run is on schedule: the instants of its events do not decrease,
each timer wake-up comes no earlier than the armed duration after the instant
`armedAt` at which the timer was armed (by the constructor, or by the previous
iteration at its last clock reading), and the expiry check of an attempt reads
the clock no earlier than the attempt itself. `last` is the instant of the
previous event. -/
def Process.onSchedule (X509KeyPair : String → String → Except String Certificate) :
    Time → Time → pki → List Event → Bool
  | _, _, _, [] => true
  | armedAt, last, p, Event.hello _ now :: es =>
    decide (last ≤ now) && Process.onSchedule X509KeyPair armedAt now p es
  | armedAt, last, p, Event.wake Wake.done :: es =>
    Process.onSchedule X509KeyPair armedAt last p es
  | armedAt, last, p, Event.wake (Wake.timer reply now nowCheck) :: es =>
    match p.timer with
    | none => false
    | some d =>
      decide (armedAt + d ≤ now) && decide (last ≤ now) && decide (now ≤ nowCheck) &&
      match renewIteration X509KeyPair p (Wake.timer reply now nowCheck) with
      | Task.looping q => Process.onSchedule X509KeyPair nowCheck nowCheck q es
      | _ => true

/-! ## Fixtures: the setting of `TestVaultPKIProvider` -/

/-- A stand-in for `tls.X509KeyPair` that accepts every chain and key. -/
def acceptPair (chain key : String) : Except String Certificate :=
  Except.ok ⟨[chain], key⟩

/-- A stand-in for `api.NewClient` that always succeeds. -/
def testNewClient (address : String) : Except String Client :=
  Except.ok ⟨address, "", []⟩

/-- The `float32` nearest to the constant `0.1`. -/
def f32_0_1 : ℚ := 13421773 / 134217728

/-- The `float32` nearest to the constant `0.9`. -/
def f32_0_9 : ℚ := 7549747 / 8388608

/-- The configuration of the test. -/
def testConfig : VaultPKIConfig :=
  { Address := "http://127.0.0.1:8200"
    Token := "test-token"
    Path := "pki"
    Role := "temp"
    CN := "*.temp.com"
    AdvertisedIPs := ["127.0.0.1", "192.168.1.1"]
    RenewModifier := f32_0_1
    RetryDelay := 0 }

/-- The body of the mock server's response, with the PEM texts abbreviated. -/
def testData : Data :=
  [("certificate", Value.str "CERT"), ("issuing_ca", Value.str "CA"),
   ("ca_chain", Value.str "CA"), ("private_key", Value.str "KEY"),
   ("private_key_type", Value.str "rsa"), ("serial_number", Value.str "")]

/-- The secret the mock server returns. -/
def testSecret : Secret :=
  { LeaseDuration := 10, Data := testData }

/-- The record parsed from the mock server's response. -/
def testCert : Certificate :=
  ⟨["CERT\nCA"], "KEY"⟩

/-- A secret like `testSecret` with another lease duration. -/
def secretWithLease (lease : Int) : Secret :=
  { LeaseDuration := lease, Data := testData }

/-- A response whose data lacks the `private_key` field. -/
def secretWithoutKey : Secret :=
  { LeaseDuration := 10
    Data := [("certificate", Value.str "CERT"), ("issuing_ca", Value.str "CA")] }

/-- A configuration like the test's but with `Path` left empty. -/
def configEmptyPath : VaultPKIConfig :=
  { testConfig with Path := "" }

/-- A configuration like the test's but with the default modifier and delay. -/
def configDefaults : VaultPKIConfig :=
  { testConfig with RenewModifier := 0 }

/-- An engine state as the constructor leaves it for `configDefaults` after an
issuance at instant `0` with a lease of 10 seconds: expiry at 10 s, timer armed
for 9 s, retry delay 30 s. -/
def engine0 : pki :=
  { mu := ⟨false, 0⟩
    cert := some ⟨0, testCert⟩
    client := ⟨"http://127.0.0.1:8200", "test-token",
      [("pki/issue/temp", [("common_name", Value.str "*.temp.com"),
                          ("ip_sans", Value.str "127.0.0.1,192.168.1.1")])]⟩
    timer := some 9000000000
    expiresAt := 10000000000
    path := "pki/issue/temp"
    data := [("common_name", Value.str "*.temp.com"),
             ("ip_sans", Value.str "127.0.0.1,192.168.1.1")]
    renewModifier := f32_0_95
    retryDelay := 30000000000
    allocs := 1 }

/-- The engine state `engine0` with another renewal modifier. -/
def engineWith (m : ℚ) : pki :=
  { engine0 with renewModifier := m }

/-- A reply of Vault that is a transport error. -/
def replyDown : Reply :=
  Except.error "connection refused"

/-- A run on `engine0` during an outage of Vault: the timer fires at 9 s and the
attempt fails, then a handshake arrives at 20 s. -/
def outagePrefix : List Event :=
  [Event.wake (Wake.timer replyDown 9000000000 9000000000), Event.hello none 20000000000]

/-- The continuation of `outagePrefix`: a handshake at 45 s, after the retry
that the failure at 9 s scheduled for 39 s. -/
def outageSuffix : List Event :=
  [Event.hello none 45000000000]

/-- A run on `engine0` whose context is cancelled at 1 s, followed by a
handshake at 20 s. -/
def cancelledRun : List Event :=
  [Event.wake Wake.done, Event.hello none 20000000000]

/-! ## Rounding lemmas -/

theorem floor_le_roundHalfEven (q : ℚ) : ⌊q⌋ ≤ roundHalfEven q := by
  unfold roundHalfEven
  split_ifs <;> omega

theorem roundHalfEven_le_floor_add_one (q : ℚ) : roundHalfEven q ≤ ⌊q⌋ + 1 := by
  unfold roundHalfEven
  split_ifs <;> omega

theorem le_roundHalfEven {q : ℚ} {k : Int} (h : (k : ℚ) ≤ q) : k ≤ roundHalfEven q :=
  le_trans (Int.le_floor.mpr h) (floor_le_roundHalfEven q)

theorem roundHalfEven_le {q : ℚ} {k : Int} (h : q ≤ (k : ℚ)) : roundHalfEven q ≤ k := by
  rcases eq_or_lt_of_le h with h | h
  · subst h
    unfold roundHalfEven
    simp
  · have : ⌊q⌋ < k := Int.floor_lt.mpr h
    have := roundHalfEven_le_floor_add_one q
    omega

theorem roundHalfEven_intCast (k : Int) : roundHalfEven (k : ℚ) = k :=
  le_antisymm (roundHalfEven_le le_rfl) (le_roundHalfEven le_rfl)

theorem roundHalfEven_down {q : ℚ} {f : Int} (h1 : (f : ℚ) ≤ q) (h2 : q - f < 1 / 2) :
    roundHalfEven q = f := by
  have hf : ⌊q⌋ = f := Int.floor_eq_iff.mpr ⟨h1, by linarith⟩
  unfold roundHalfEven
  rw [hf, if_pos h2]

theorem roundHalfEven_up {q : ℚ} {f : Int} (h1 : 1 / 2 < q - f) (h2 : q < f + 1) :
    roundHalfEven q = f + 1 := by
  have hf : ⌊q⌋ = f := Int.floor_eq_iff.mpr ⟨by linarith, h2⟩
  unfold roundHalfEven
  rw [hf, if_neg (not_lt.mpr h1.le), if_pos h1]

theorem roundHalfEven_tie {q : ℚ} {f : Int} (h : q - f = 1 / 2) :
    roundHalfEven q = if f % 2 = 0 then f else f + 1 := by
  have hf : ⌊q⌋ = f := Int.floor_eq_iff.mpr ⟨by linarith, by linarith⟩
  unfold roundHalfEven
  rw [hf, if_neg (by rw [h]; exact lt_irrefl _), if_neg (by rw [h]; exact lt_irrefl _)]

theorem log2_eq_of_bounds {x : ℚ} {k : Int} (h1 : (2 : ℚ) ^ k ≤ x) (h2 : x < (2 : ℚ) ^ (k + 1)) :
    Int.log 2 x = k := by
  have hx : 0 < x := lt_of_lt_of_le (by positivity) h1
  have a : k ≤ Int.log 2 x :=
    (Int.zpow_le_iff_le_log (by norm_num) hx).mp (by exact_mod_cast h1)
  have b : Int.log 2 x < k + 1 :=
    (Int.lt_zpow_iff_log_lt (by norm_num) hx).mp (by exact_mod_cast h2)
  omega

theorem roundF32_of_pos {x : ℚ} (hx : 0 < x) :
    roundF32 x = (roundHalfEven (x / (2 : ℚ) ^ ulpExp x) : ℚ) * (2 : ℚ) ^ ulpExp x := by
  unfold roundF32
  rw [if_neg hx.ne', if_pos hx]

theorem roundF32_eval {x : ℚ} {k r : Int} (h1 : (2 : ℚ) ^ k ≤ x) (h2 : x < (2 : ℚ) ^ (k + 1))
    (hr : roundHalfEven (x / (2 : ℚ) ^ max (k - 23) (-149)) = r) :
    roundF32 x = (r : ℚ) * (2 : ℚ) ^ max (k - 23) (-149) := by
  have hx : 0 < x := lt_of_lt_of_le (by positivity) h1
  rw [roundF32_of_pos hx]
  unfold ulpExp
  rw [log2_eq_of_bounds h1 h2, hr]

theorem ulpExp_pos_imp {x : ℚ} (hx : 0 < x) (he : 0 < ulpExp x) :
    (2 : ℚ) ^ (ulpExp x + 23) ≤ x := by
  unfold ulpExp at he ⊢
  have h : max (Int.log 2 x - 23) (-149) = Int.log 2 x - 23 := by
    rcases le_total (Int.log 2 x - 23) (-149) with h | h
    · rw [max_eq_right h] at he; omega
    · exact max_eq_left h
  rw [h, sub_add_cancel]
  exact_mod_cast Int.zpow_log_le_self (b := 2) (by norm_num) hx

/-- An integer of magnitude at most `2 ^ 24` lies on the binary32 grid around any
positive `x` above it, so rounding `x` cannot fall below it. -/
theorem le_roundF32 {x : ℚ} {n : Int} (hx : 0 < x) (hn : n ≤ 2 ^ 24) (h : (n : ℚ) ≤ x) :
    (n : ℚ) ≤ roundF32 x := by
  rw [roundF32_of_pos hx]
  have hpos : (0 : ℚ) < (2 : ℚ) ^ ulpExp x := by positivity
  rcases le_or_lt (ulpExp x) 0 with he | he
  · obtain ⟨m, hm⟩ : ∃ m : ℕ, ulpExp x = -(m : Int) := ⟨(-ulpExp x).toNat, by omega⟩
    have hk : ((n * 2 ^ m : Int) : ℚ) = (n : ℚ) / (2 : ℚ) ^ ulpExp x := by
      rw [hm, zpow_neg, zpow_natCast]
      push_cast
      field_simp
    have hle : ((n * 2 ^ m : Int) : ℚ) ≤ x / (2 : ℚ) ^ ulpExp x := by
      rw [hk]
      exact div_le_div_of_nonneg_right h hpos.le
    have := le_roundHalfEven hle
    have h2 : ((n * 2 ^ m : Int) : ℚ) ≤ (roundHalfEven (x / (2 : ℚ) ^ ulpExp x) : ℚ) := by
      exact_mod_cast this
    rw [hk, div_le_iff₀ hpos] at h2
    exact h2
  · have hbig := ulpExp_pos_imp hx he
    have hq : (((2 : Int) ^ 23 : Int) : ℚ) ≤ x / (2 : ℚ) ^ ulpExp x := by
      rw [le_div_iff₀ hpos]
      rw [zpow_add₀ (by norm_num : (2 : ℚ) ≠ 0)] at hbig
      have : (2 : ℚ) ^ (23 : Int) = 2 ^ 23 := by norm_num
      rw [this, mul_comm] at hbig
      push_cast
      exact hbig
    have h1 := le_roundHalfEven hq
    have h2 : (((2 : Int) ^ 23 : Int) : ℚ) ≤ (roundHalfEven (x / (2 : ℚ) ^ ulpExp x) : ℚ) := by
      exact_mod_cast h1
    have h3 : (2 : ℚ) ^ (1 : Int) ≤ (2 : ℚ) ^ ulpExp x :=
      zpow_le_zpow_right₀ (by norm_num) (by omega)
    have h4 : (n : ℚ) ≤ 2 ^ 24 := by exact_mod_cast hn
    have h5 : (0 : ℚ) ≤ (roundHalfEven (x / (2 : ℚ) ^ ulpExp x) : ℚ) := le_trans (by norm_num) h2
    calc (n : ℚ) ≤ 2 ^ 24 := h4
      _ = (((2 : Int) ^ 23 : Int) : ℚ) * (2 : ℚ) ^ (1 : Int) := by norm_num
      _ ≤ (roundHalfEven (x / (2 : ℚ) ^ ulpExp x) : ℚ) * (2 : ℚ) ^ ulpExp x :=
          mul_le_mul h2 h3 (by norm_num) h5

/-- An integer of magnitude at most `2 ^ 24` lies on the binary32 grid around any
positive `x` below it, so rounding `x` cannot rise above it. -/
theorem roundF32_le {x : ℚ} {n : Int} (hx : 0 < x) (hn : n ≤ 2 ^ 24) (h : x ≤ (n : ℚ)) :
    roundF32 x ≤ (n : ℚ) := by
  have hpos : (0 : ℚ) < (2 : ℚ) ^ ulpExp x := by positivity
  rcases le_or_lt (ulpExp x) 0 with he | he
  · rw [roundF32_of_pos hx]
    obtain ⟨m, hm⟩ : ∃ m : ℕ, ulpExp x = -(m : Int) := ⟨(-ulpExp x).toNat, by omega⟩
    have hk : ((n * 2 ^ m : Int) : ℚ) = (n : ℚ) / (2 : ℚ) ^ ulpExp x := by
      rw [hm, zpow_neg, zpow_natCast]
      push_cast
      field_simp
    have hle : x / (2 : ℚ) ^ ulpExp x ≤ ((n * 2 ^ m : Int) : ℚ) := by
      rw [hk]
      exact div_le_div_of_nonneg_right h hpos.le
    have := roundHalfEven_le hle
    have h2 : (roundHalfEven (x / (2 : ℚ) ^ ulpExp x) : ℚ) ≤ ((n * 2 ^ m : Int) : ℚ) := by
      exact_mod_cast this
    rw [hk, le_div_iff₀ hpos] at h2
    exact h2
  · have hbig := ulpExp_pos_imp hx he
    have h3 : (2 : ℚ) ^ (24 : Int) ≤ (2 : ℚ) ^ (ulpExp x + 23) :=
      zpow_le_zpow_right₀ (by norm_num) (by omega)
    have h4 : (n : ℚ) ≤ 2 ^ 24 := by exact_mod_cast hn
    have h5 : (2 : ℚ) ^ (24 : Int) = 2 ^ 24 := by norm_num
    have hxe : x = 2 ^ 24 := le_antisymm (le_trans h h4) (by rw [← h5]; exact le_trans h3 hbig)
    have hne : (n : ℚ) = 2 ^ 24 := le_antisymm h4 (by rw [← hxe]; exact h)
    have hr : roundHalfEven ((2 : ℚ) ^ 24 / (2 : ℚ) ^ max ((24 : Int) - 23) (-149)) = 2 ^ 23 := by
      have : (2 : ℚ) ^ 24 / (2 : ℚ) ^ max ((24 : Int) - 23) (-149) = (((2 : Int) ^ 23 : Int) : ℚ) := by
        norm_num
      rw [this, roundHalfEven_intCast]
    have he2 := roundF32_eval (x := (2 : ℚ) ^ 24) (k := 24) (by norm_num) (by norm_num) hr
    rw [hxe, hne, he2]
    norm_num

theorem roundF32_intCast {n : Int} (h0 : 0 < n) (hn : n ≤ 2 ^ 24) : roundF32 (n : ℚ) = n :=
  le_antisymm (roundF32_le (by exact_mod_cast h0) hn le_rfl)
    (le_roundF32 (by exact_mod_cast h0) hn le_rfl)

/-! ## Monotonicity and idempotence of the rounding -/

theorem roundHalfEven_mono {q1 q2 : ℚ} (h : q1 ≤ q2) : roundHalfEven q1 ≤ roundHalfEven q2 := by
  have hfl : ⌊q1⌋ ≤ ⌊q2⌋ := Int.floor_mono h
  rcases lt_or_eq_of_le hfl with hlt | heq
  · have h1 := roundHalfEven_le_floor_add_one q1
    have h2 := floor_le_roundHalfEven q2
    omega
  · unfold roundHalfEven
    rw [heq]
    split_ifs <;> first | omega | (exfalso; linarith)

theorem roundHalfEven_le_add_half (q : ℚ) : (roundHalfEven q : ℚ) ≤ q + 1 / 2 := by
  have hf : ((⌊q⌋ : Int) : ℚ) ≤ q := Int.floor_le q
  unfold roundHalfEven
  split_ifs <;> push_cast <;> linarith

theorem ulpExp_ge (x : ℚ) : -149 ≤ ulpExp x :=
  le_max_right _ _

theorem ulpExp_mono {x y : ℚ} (hx : 0 < x) (hxy : x ≤ y) : ulpExp x ≤ ulpExp y := by
  unfold ulpExp
  have := Int.log_mono_right (b := 2) hx hxy
  exact max_le_max (by omega) le_rfl

theorem lt_zpow_ulpExp {x : ℚ} (_hx : 0 < x) : x < (2 : ℚ) ^ (ulpExp x + 24) := by
  have h1 : x < (2 : ℚ) ^ (Int.log 2 x + 1) := by
    exact_mod_cast Int.lt_zpow_succ_log_self (b := 2) (by norm_num) x
  have h2 : Int.log 2 x + 1 ≤ ulpExp x + 24 := by
    have : Int.log 2 x - 23 ≤ ulpExp x := le_max_left _ _
    omega
  exact lt_of_lt_of_le h1 (zpow_le_zpow_right₀ (by norm_num) h2)

theorem roundF32_nonneg {x : ℚ} (hx : 0 < x) : 0 ≤ roundF32 x := by
  rw [roundF32_of_pos hx]
  have hpos : (0 : ℚ) < (2 : ℚ) ^ ulpExp x := by positivity
  have hq : ((0 : Int) : ℚ) ≤ x / (2 : ℚ) ^ ulpExp x := by
    push_cast
    exact (div_pos hx hpos).le
  have h0 : (0 : Int) ≤ roundHalfEven (x / (2 : ℚ) ^ ulpExp x) := le_roundHalfEven hq
  have h1 : (0 : ℚ) ≤ (roundHalfEven (x / (2 : ℚ) ^ ulpExp x) : ℚ) := by exact_mod_cast h0
  exact mul_nonneg h1 hpos.le

/-- The rounding moves a positive value up by at most half a unit in the last
place. -/
theorem roundF32_le_add {x : ℚ} (hx : 0 < x) :
    roundF32 x ≤ x + (2 : ℚ) ^ ulpExp x / 2 := by
  rw [roundF32_of_pos hx]
  have hpos : (0 : ℚ) < (2 : ℚ) ^ ulpExp x := by positivity
  have h := roundHalfEven_le_add_half (x / (2 : ℚ) ^ ulpExp x)
  calc (roundHalfEven (x / (2 : ℚ) ^ ulpExp x) : ℚ) * (2 : ℚ) ^ ulpExp x
      ≤ (x / (2 : ℚ) ^ ulpExp x + 1 / 2) * (2 : ℚ) ^ ulpExp x :=
        mul_le_mul_of_nonneg_right h hpos.le
    _ = x + (2 : ℚ) ^ ulpExp x / 2 := by field_simp; ring

/-- Half a unit in the last place is at most `x / 2 ^ 24` for a normal `x`, and
`2 ^ (-150)` in the subnormal range. -/
theorem half_ulp_le {x : ℚ} (hx : 0 < x) :
    (2 : ℚ) ^ ulpExp x / 2 ≤ x / 2 ^ 24 ∨ (2 : ℚ) ^ ulpExp x / 2 = 1 / 2 ^ 150 := by
  rcases le_total (Int.log 2 x - 23) (-149) with h | h
  · right
    have : ulpExp x = -149 := by unfold ulpExp; exact max_eq_right h
    rw [this]
    norm_num
  · left
    have he : ulpExp x = Int.log 2 x - 23 := by unfold ulpExp; exact max_eq_left h
    have hlog : (2 : ℚ) ^ Int.log 2 x ≤ x := by
      exact_mod_cast Int.zpow_log_le_self (b := 2) (by norm_num) hx
    have h2 : (2 : ℚ) ^ ulpExp x = (2 : ℚ) ^ Int.log 2 x / 2 ^ 23 := by
      rw [he, zpow_sub₀ (by norm_num : (2 : ℚ) ≠ 0)]
      norm_num
    rw [h2]
    have : (2 : ℚ) ^ Int.log 2 x / 2 ^ 23 / 2 = (2 : ℚ) ^ Int.log 2 x / 2 ^ 24 := by ring
    rw [this]
    exact div_le_div_of_nonneg_right hlog (by positivity)

theorem roundF32_mono {x y : ℚ} (hx : 0 < x) (hxy : x ≤ y) : roundF32 x ≤ roundF32 y := by
  have hy : 0 < y := lt_of_lt_of_le hx hxy
  have hposx : (0 : ℚ) < (2 : ℚ) ^ ulpExp x := by positivity
  have hposy : (0 : ℚ) < (2 : ℚ) ^ ulpExp y := by positivity
  rcases eq_or_lt_of_le (ulpExp_mono hx hxy) with heq | hlt
  · rw [roundF32_of_pos hx, roundF32_of_pos hy, heq]
    have hq : x / (2 : ℚ) ^ ulpExp y ≤ y / (2 : ℚ) ^ ulpExp y :=
      div_le_div_of_nonneg_right hxy hposy.le
    have := roundHalfEven_mono hq
    exact mul_le_mul_of_nonneg_right (by exact_mod_cast this) hposy.le
  · -- the binade of `y` starts at a point of both grids
    have hey : ulpExp y = Int.log 2 y - 23 := by
      have h149 := ulpExp_ge x
      unfold ulpExp at hlt ⊢
      rcases le_total (Int.log 2 y - 23) (-149) with h | h
      · rw [max_eq_right h] at hlt
        have : -149 ≤ max (Int.log 2 x - 23) (-149) := le_max_right _ _
        omega
      · exact max_eq_left h
    have hylow : (2 : ℚ) ^ (ulpExp y + 23) ≤ y := by
      rw [hey, sub_add_cancel]
      exact_mod_cast Int.zpow_log_le_self (b := 2) (by norm_num) hy
    have hxup : x < (2 : ℚ) ^ (ulpExp x + 24) := lt_zpow_ulpExp hx
    have hmid : roundF32 x ≤ (2 : ℚ) ^ (ulpExp y + 23) := by
      rw [roundF32_of_pos hx]
      obtain ⟨n, hn⟩ : ∃ n : ℕ, ulpExp y + 23 - ulpExp x = (n : Int) :=
        ⟨(ulpExp y + 23 - ulpExp x).toNat, by omega⟩
      have hsplit : (2 : ℚ) ^ (ulpExp y + 23) = (((2 : Int) ^ n : Int) : ℚ) * (2 : ℚ) ^ ulpExp x := by
        have : ulpExp y + 23 = (n : Int) + ulpExp x := by omega
        rw [this, zpow_add₀ (by norm_num : (2 : ℚ) ≠ 0), zpow_natCast]
        push_cast
        rfl
      have hle : x / (2 : ℚ) ^ ulpExp x ≤ (((2 : Int) ^ n : Int) : ℚ) := by
        rw [div_le_iff₀ hposx, ← hsplit]
        have : (2 : ℚ) ^ (ulpExp x + 24) ≤ (2 : ℚ) ^ (ulpExp y + 23) :=
          zpow_le_zpow_right₀ (by norm_num) (by omega)
        exact (lt_of_lt_of_le hxup this).le
      have := roundHalfEven_le hle
      rw [hsplit]
      exact mul_le_mul_of_nonneg_right (by exact_mod_cast this) hposx.le
    have hhigh : (2 : ℚ) ^ (ulpExp y + 23) ≤ roundF32 y := by
      rw [roundF32_of_pos hy]
      have hq : (((2 : Int) ^ 23 : Int) : ℚ) ≤ y / (2 : ℚ) ^ ulpExp y := by
        rw [le_div_iff₀ hposy]
        rw [zpow_add₀ (by norm_num : (2 : ℚ) ≠ 0)] at hylow
        have : (2 : ℚ) ^ (23 : Int) = 2 ^ 23 := by norm_num
        rw [this, mul_comm] at hylow
        push_cast
        exact hylow
      have := le_roundHalfEven hq
      have h2 : (((2 : Int) ^ 23 : Int) : ℚ) ≤ (roundHalfEven (y / (2 : ℚ) ^ ulpExp y) : ℚ) := by
        exact_mod_cast this
      have h3 : (2 : ℚ) ^ (ulpExp y + 23) = (((2 : Int) ^ 23 : Int) : ℚ) * (2 : ℚ) ^ ulpExp y := by
        rw [zpow_add₀ (by norm_num : (2 : ℚ) ≠ 0)]
        have : (2 : ℚ) ^ (23 : Int) = 2 ^ 23 := by norm_num
        rw [this, mul_comm]
        push_cast
        rfl
      rw [h3]
      exact mul_le_mul_of_nonneg_right h2 hposy.le
    exact le_trans hmid hhigh

/-- A multiple `k * 2 ^ e` with `0 < k < 2 ^ 24` and `e ≥ -149` is a binary32
value: the rounding leaves it unchanged. -/
theorem roundF32_of_grid {k e : Int} (hk0 : 0 < k) (hk : k < 2 ^ 24) (he : -149 ≤ e) :
    roundF32 ((k : ℚ) * (2 : ℚ) ^ e) = (k : ℚ) * (2 : ℚ) ^ e := by
  have hpe : (0 : ℚ) < (2 : ℚ) ^ e := by positivity
  have hkq : (0 : ℚ) < (k : ℚ) := by exact_mod_cast hk0
  have hg : 0 < (k : ℚ) * (2 : ℚ) ^ e := mul_pos hkq hpe
  have hu : ulpExp ((k : ℚ) * (2 : ℚ) ^ e) ≤ e := by
    unfold ulpExp
    refine max_le ?_ he
    have hlt : (k : ℚ) * (2 : ℚ) ^ e < ((2 : ℕ) : ℚ) ^ (e + 24) := by
      rw [zpow_add₀ (by norm_num : ((2 : ℕ) : ℚ) ≠ 0), mul_comm]
      have h24 : (k : ℚ) < ((2 : ℕ) : ℚ) ^ (24 : Int) := by
        have : (k : ℚ) < 2 ^ 24 := by exact_mod_cast hk
        norm_num
        linarith
      have : ((2 : ℕ) : ℚ) ^ e = (2 : ℚ) ^ e := by norm_num
      rw [this]
      exact mul_lt_mul_of_pos_left h24 hpe
    have := (Int.lt_zpow_iff_log_lt (b := 2) (by norm_num) hg).mp hlt
    omega
  rw [roundF32_of_pos hg]
  set u := ulpExp ((k : ℚ) * (2 : ℚ) ^ e) with hudef
  have hpu : (0 : ℚ) < (2 : ℚ) ^ u := by positivity
  obtain ⟨n, hn⟩ : ∃ n : ℕ, e - u = (n : Int) := ⟨(e - u).toNat, by omega⟩
  have hsplit : (2 : ℚ) ^ e = (((2 : Int) ^ n : Int) : ℚ) * (2 : ℚ) ^ u := by
    have : e = (n : Int) + u := by omega
    rw [this, zpow_add₀ (by norm_num : (2 : ℚ) ≠ 0), zpow_natCast]
    push_cast
    rfl
  have hq : (k : ℚ) * (2 : ℚ) ^ e / (2 : ℚ) ^ u = ((k * 2 ^ n : Int) : ℚ) := by
    rw [hsplit]
    push_cast
    field_simp
    ring
  rw [hq, roundHalfEven_intCast, hsplit]
  push_cast
  ring

theorem roundF32_zero : roundF32 0 = 0 := by
  unfold roundF32
  rw [if_pos rfl]

/-- Rounding is idempotent: the result of a rounding is a binary32 value. -/
theorem roundF32_idem {y : ℚ} (hy : 0 < y) : roundF32 (roundF32 y) = roundF32 y := by
  have hpos : (0 : ℚ) < (2 : ℚ) ^ ulpExp y := by positivity
  have hval := roundF32_of_pos hy
  have hq0 : ((0 : Int) : ℚ) ≤ y / (2 : ℚ) ^ ulpExp y := by
    push_cast
    exact (div_pos hy hpos).le
  have hk0 : (0 : Int) ≤ roundHalfEven (y / (2 : ℚ) ^ ulpExp y) := le_roundHalfEven hq0
  have hq24 : y / (2 : ℚ) ^ ulpExp y ≤ (((2 : Int) ^ 24 : Int) : ℚ) := by
    rw [div_le_iff₀ hpos]
    have h := lt_zpow_ulpExp hy
    rw [zpow_add₀ (by norm_num : (2 : ℚ) ≠ 0)] at h
    have : (2 : ℚ) ^ (24 : Int) = 2 ^ 24 := by norm_num
    rw [this, mul_comm] at h
    push_cast
    exact h.le
  have hk24 : roundHalfEven (y / (2 : ℚ) ^ ulpExp y) ≤ 2 ^ 24 := roundHalfEven_le hq24
  rw [hval]
  rcases eq_or_lt_of_le hk0 with h0 | h0
  · rw [← h0]
    simp [roundF32_zero]
  · rcases eq_or_lt_of_le hk24 with h24 | h24
    · rw [h24]
      have hre : (((2 : Int) ^ 24 : Int) : ℚ) * (2 : ℚ) ^ ulpExp y
          = (((2 : Int) ^ 23 : Int) : ℚ) * (2 : ℚ) ^ (ulpExp y + 1) := by
        rw [zpow_add₀ (by norm_num : (2 : ℚ) ≠ 0)]
        push_cast
        ring
      rw [hre]
      exact roundF32_of_grid (by norm_num) (by norm_num) (by have := ulpExp_ge y; omega)
    · exact roundF32_of_grid h0 h24 (ulpExp_ge y)

/-! ## The interval computed by `updateCert` -/

theorem wrapInt64_eq {n : Int} (h1 : -2 ^ 63 ≤ n) (h2 : n < 2 ^ 63) : wrapInt64 n = n := by
  unfold wrapInt64
  rw [Int.emod_eq_of_lt (by linarith) (by linarith)]
  ring

theorem seconds_eq {n : Int} (h1 : -9223372036 ≤ n) (h2 : n ≤ 9223372036) :
    seconds n = 1000000000 * n := by
  unfold seconds Second
  rw [wrapInt64_eq (n := n) (by norm_num; omega) (by norm_num; omega)]
  exact wrapInt64_eq (by norm_num; omega) (by norm_num; omega)

theorem floor_le_int {q : ℚ} {k : Int} (h : q ≤ (k : ℚ)) : ⌊q⌋ ≤ k := by
  have : ((⌊q⌋ : Int) : ℚ) ≤ (k : ℚ) := le_trans (Int.floor_le q) h
  exact_mod_cast this

theorem renewAfter_eq {L : Int} {m : ℚ} (hL1 : 1 ≤ L) (hL2 : L ≤ 2 ^ 24) (hm0 : 0 < m) :
    renewAfter L m = ⌊roundF32 ((L : ℚ) * m)⌋ := by
  have hLq : (0 : ℚ) < (L : ℚ) := by exact_mod_cast (by omega : 0 < L)
  have hx : 0 < (L : ℚ) * m := mul_pos hLq hm0
  unfold renewAfter mulF32 float32OfInt intOfFloat
  rw [roundF32_intCast (by omega) hL2]
  have h0 : ((0 : Int) : ℚ) ≤ roundF32 ((L : ℚ) * m) :=
    le_roundF32 hx (by norm_num) (by exact_mod_cast hx.le)
  rw [if_pos (by exact_mod_cast h0)]

theorem renewAfter_bounds {L : Int} {m : ℚ} (hL1 : 1 ≤ L) (hL2 : L ≤ 2 ^ 24)
    (hm0 : 0 < m) (hm1 : m ≤ 1) :
    ⌊(L : ℚ) * m⌋ ≤ renewAfter L m ∧ renewAfter L m ≤ ⌊(L : ℚ) * m⌋ + 1 ∧
      renewAfter L m ≤ L := by
  have hLq : (0 : ℚ) < (L : ℚ) := by exact_mod_cast (by omega : 0 < L)
  have hx : 0 < (L : ℚ) * m := mul_pos hLq hm0
  have hxL : (L : ℚ) * m ≤ (L : ℚ) := by nlinarith
  rw [renewAfter_eq hL1 hL2 hm0]
  have hfl : ⌊(L : ℚ) * m⌋ ≤ L := floor_le_int hxL
  have hupL : roundF32 ((L : ℚ) * m) ≤ (L : ℚ) := roundF32_le hx hL2 hxL
  refine ⟨?_, ?_, ?_⟩
  · exact Int.le_floor.mpr (le_roundF32 hx (by omega) (Int.floor_le _))
  · rcases le_or_lt (⌊(L : ℚ) * m⌋ + 1) (2 ^ 24) with h | h
    · have : roundF32 ((L : ℚ) * m) ≤ ((⌊(L : ℚ) * m⌋ + 1 : Int) : ℚ) :=
        roundF32_le hx h (by push_cast; exact (Int.lt_floor_add_one _).le)
      exact floor_le_int this
    · have : ⌊roundF32 ((L : ℚ) * m)⌋ ≤ L := floor_le_int hupL
      omega
  · exact floor_le_int hupL

theorem intOfFloat_intCast (k : Int) : intOfFloat (k : ℚ) = k := by
  unfold intOfFloat
  split_ifs <;> simp

theorem one_le_float32OfInt {L : Int} (hL1 : 1 ≤ L) : (1 : ℚ) ≤ float32OfInt L := by
  have hLq : (0 : ℚ) < (L : ℚ) := by exact_mod_cast (by omega : 0 < L)
  have h := le_roundF32 (x := (L : ℚ)) (n := 1) hLq (by norm_num) (by exact_mod_cast hL1)
  unfold float32OfInt
  exact_mod_cast h

/-- The interval in seconds never exceeds the lease, unless the modifier is the
`float32` value 1 and the conversion of the lease to `float32` rounds up. -/
theorem renewAfter_le_lease {L : Int} {m : ℚ} (hL1 : 1 ≤ L) (hm0 : 0 < m) (hm1 : m ≤ 1)
    (hm : m ≤ 1 - 1 / 2 ^ 24 ∨ float32OfInt L ≤ (L : ℚ)) :
    0 ≤ renewAfter L m ∧ renewAfter L m ≤ L := by
  have hLq : (0 : ℚ) < (L : ℚ) := by exact_mod_cast (by omega : 0 < L)
  have ha1 : (1 : ℚ) ≤ float32OfInt L := one_le_float32OfInt hL1
  have ha0 : (0 : ℚ) < float32OfInt L := lt_of_lt_of_le one_pos ha1
  have hx : 0 < float32OfInt L * m := mul_pos ha0 hm0
  have hr0 : 0 ≤ roundF32 (float32OfInt L * m) := roundF32_nonneg hx
  have hidem : roundF32 (float32OfInt L) = float32OfInt L := by
    unfold float32OfInt
    exact roundF32_idem hLq
  have hra : roundF32 (float32OfInt L * m) ≤ float32OfInt L := by
    have := roundF32_mono hx (by nlinarith : float32OfInt L * m ≤ float32OfInt L)
    rwa [hidem] at this
  have hrL : roundF32 (float32OfInt L * m) ≤ (L : ℚ) := by
    rcases le_or_lt (float32OfInt L) (L : ℚ) with hA | hB
    · exact le_trans hra hA
    · have hm24 : m ≤ 1 - 1 / 2 ^ 24 := by
        rcases hm with h | h
        · exact h
        · exact absurd h (not_le.mpr hB)
      have hxle : float32OfInt L * m ≤ float32OfInt L * (1 - 1 / 2 ^ 24) :=
        mul_le_mul_of_nonneg_left hm24 ha0.le
      have hlt : roundF32 (float32OfInt L * m) < float32OfInt L := by
        have hadd := roundF32_le_add hx
        rcases half_ulp_le hx with hu | hu
        · have h1 : roundF32 (float32OfInt L * m)
              ≤ float32OfInt L * (1 - 1 / 2 ^ 24) * (1 + 1 / 2 ^ 24) := by
            have : roundF32 (float32OfInt L * m) ≤ float32OfInt L * m * (1 + 1 / 2 ^ 24) := by
              have e : float32OfInt L * m * (1 + 1 / 2 ^ 24)
                  = float32OfInt L * m + float32OfInt L * m / 2 ^ 24 := by ring
              rw [e]
              linarith
            exact le_trans this (mul_le_mul_of_nonneg_right hxle (by norm_num))
          have h2 : float32OfInt L * (1 - 1 / 2 ^ 24) * (1 + 1 / 2 ^ 24) < float32OfInt L := by
            have e : float32OfInt L * (1 - 1 / 2 ^ 24) * (1 + 1 / 2 ^ 24)
                = float32OfInt L - float32OfInt L / 2 ^ 48 := by ring
            rw [e]
            have : 0 < float32OfInt L / 2 ^ 48 := by positivity
            linarith
          exact lt_of_le_of_lt h1 h2
        · rw [hu] at hadd
          have e : float32OfInt L * (1 - 1 / 2 ^ 24) = float32OfInt L - float32OfInt L / 2 ^ 24 := by
            ring
          rw [e] at hxle
          have h3 : (1 : ℚ) / 2 ^ 24 ≤ float32OfInt L / 2 ^ 24 :=
            div_le_div_of_nonneg_right ha1 (by positivity)
          have h4 : (1 : ℚ) / 2 ^ 150 < 1 / 2 ^ 24 := by norm_num
          linarith
      by_contra hcon
      have hLr : (L : ℚ) ≤ roundF32 (float32OfInt L * m) := (not_le.mp hcon).le
      have hmono := roundF32_mono hLq hLr
      rw [roundF32_idem hx] at hmono
      have : float32OfInt L ≤ roundF32 (float32OfInt L * m) := hmono
      exact absurd hlt (not_lt.mpr this)
  unfold renewAfter mulF32 intOfFloat
  rw [if_pos hr0]
  exact ⟨Int.floor_nonneg.mpr hr0, floor_le_int hrL⟩

/-- The bound of `renewAfter_le_lease` is sharp: with the modifier 1, a lease
whose conversion to `float32` rounds up gives an interval above the lease. -/
theorem renewAfter_one_gt_lease {L : Int} (hL1 : 1 ≤ L) (h : (L : ℚ) < float32OfInt L) :
    L < renewAfter L 1 := by
  have hLq : (0 : ℚ) < (L : ℚ) := by exact_mod_cast (by omega : 0 < L)
  have hbig : (2 : Int) ^ 24 < L := by
    by_contra hcon
    have := roundF32_intCast (by omega : 0 < L) (not_lt.mp hcon)
    unfold float32OfInt at h
    rw [this] at h
    exact lt_irrefl _ h
  have hlog : 24 ≤ Int.log 2 (L : ℚ) := by
    refine (Int.zpow_le_iff_le_log (b := 2) (by norm_num) hLq).mp ?_
    have : ((2 : Int) ^ 24 : Int) ≤ L := hbig.le
    have h2 : (((2 : Int) ^ 24 : Int) : ℚ) ≤ (L : ℚ) := by exact_mod_cast this
    norm_num at h2 ⊢
    exact h2
  have hu : 1 ≤ ulpExp (L : ℚ) := by
    have : Int.log 2 (L : ℚ) - 23 ≤ ulpExp (L : ℚ) := le_max_left _ _
    omega
  obtain ⟨n, hn⟩ : ∃ n : ℕ, ulpExp (L : ℚ) = (n : Int) := ⟨(ulpExp (L : ℚ)).toNat, by omega⟩
  have hval : float32OfInt L
      = ((roundHalfEven ((L : ℚ) / (2 : ℚ) ^ ulpExp (L : ℚ)) * 2 ^ n : Int) : ℚ) := by
    unfold float32OfInt
    rw [roundF32_of_pos hLq]
    push_cast
    rw [hn, zpow_natCast]
  have hidem : roundF32 (float32OfInt L) = float32OfInt L := by
    unfold float32OfInt
    exact roundF32_idem hLq
  unfold renewAfter mulF32
  rw [mul_one, hidem, hval, intOfFloat_intCast]
  rw [hval] at h
  exact_mod_cast h

/-- For a lease that fits a `time.Duration` and a modifier in `(0, 1]` the
interval in seconds fits an `int`: it lies between 0 and `2 ^ 34`. -/
theorem renewAfter_fits {L : Int} {m : ℚ} (hL1 : 1 ≤ L) (hL2 : L ≤ 9223372036)
    (hm0 : 0 < m) (hm1 : m ≤ 1) :
    -2 ^ 63 ≤ renewAfter L m ∧ renewAfter L m < 2 ^ 63 := by
  have hLq : (0 : ℚ) < (L : ℚ) := by exact_mod_cast (by omega : 0 < L)
  have ha0 : (0 : ℚ) < float32OfInt L := lt_of_lt_of_le one_pos (one_le_float32OfInt hL1)
  have hx : 0 < float32OfInt L * m := mul_pos ha0 hm0
  have hr0 : 0 ≤ roundF32 (float32OfInt L * m) := roundF32_nonneg hx
  have hgrid : roundF32 ((2 : ℚ) ^ 34) = (2 : ℚ) ^ 34 := by
    have h := roundF32_of_grid (k := 2 ^ 23) (e := 11) (by norm_num) (by norm_num) (by norm_num)
    have e : (((2 : Int) ^ 23 : Int) : ℚ) * (2 : ℚ) ^ (11 : Int) = (2 : ℚ) ^ 34 := by norm_num
    rwa [e] at h
  have hL34 : (L : ℚ) ≤ (2 : ℚ) ^ 34 := by
    have : (L : ℚ) ≤ 9223372036 := by exact_mod_cast hL2
    exact le_trans this (by norm_num)
  have ha : float32OfInt L ≤ (2 : ℚ) ^ 34 := by
    have := roundF32_mono hLq hL34
    rwa [hgrid] at this
  have hxa : float32OfInt L * m ≤ (2 : ℚ) ^ 34 := le_trans (by nlinarith) ha
  have hr : roundF32 (float32OfInt L * m) ≤ (((2 : Int) ^ 34 : Int) : ℚ) := by
    have := roundF32_mono hx hxa
    rw [hgrid] at this
    push_cast
    exact this
  have hfl : renewAfter L m = ⌊roundF32 (float32OfInt L * m)⌋ := by
    unfold renewAfter mulF32 intOfFloat
    rw [if_pos hr0]
  rw [hfl]
  have h1 : 0 ≤ ⌊roundF32 (float32OfInt L * m)⌋ := Int.floor_nonneg.mpr hr0
  have h2 : ⌊roundF32 (float32OfInt L * m)⌋ ≤ 2 ^ 34 := floor_le_int hr
  constructor
  · exact le_trans (by norm_num) h1
  · exact lt_of_le_of_lt h2 (by norm_num)

/-- The outcome of `updateCert` when the reply carries the three fields as
strings and the pair parses. -/
theorem updateCert_ok (X : String → String → Except String Certificate) (p : pki) (s : Secret)
    (now : Time) {ca crt key : String} {c : Certificate}
    (hca : s.Data.lookup "issuing_ca" = some (Value.str ca))
    (hcrt : s.Data.lookup "certificate" = some (Value.str crt))
    (hkey : s.Data.lookup "private_key" = some (Value.str key))
    (hX : X (crt ++ "\n" ++ ca) key = Except.ok c) :
    updateCert X p (Except.ok (some s)) now =
      Step.ok (seconds (renewAfter s.LeaseDuration p.renewModifier))
        { p with
          mu := ⟨false, p.mu.r⟩
          client := p.client.Write p.path p.data
          cert := some ⟨p.allocs, c⟩
          allocs := p.allocs + 1
          expiresAt := now + seconds s.LeaseDuration } := by
  simp only [updateCert, hca, hcrt, hkey, assertString, hX, pki.Lock, pki.Unlock]

/-! ## Evaluations of the interval -/

theorem renewAfter_10_0_1 : renewAfter 10 f32_0_1 = 1 := by
  have hr : roundHalfEven ((10 : ℚ) * f32_0_1 / (2 : ℚ) ^ max ((0 : Int) - 23) (-149)) = 8388608 :=
    roundHalfEven_down (by norm_num [f32_0_1]) (by norm_num [f32_0_1])
  have h := roundF32_eval (x := (10 : ℚ) * f32_0_1) (k := 0)
    (by norm_num [f32_0_1]) (by norm_num [f32_0_1]) hr
  have h10 : roundF32 ((10 : Int) : ℚ) = ((10 : Int) : ℚ) := roundF32_intCast (by norm_num) (by norm_num)
  unfold renewAfter mulF32 float32OfInt
  rw [h10]
  push_cast
  rw [h]
  have : ((8388608 : Int) : ℚ) * (2 : ℚ) ^ max ((0 : Int) - 23) (-149) = ((1 : Int) : ℚ) := by norm_num
  rw [this, intOfFloat_intCast]

theorem renewAfter_10_0_9 : renewAfter 10 f32_0_9 = 9 := by
  have hr : roundHalfEven ((10 : ℚ) * f32_0_9 / (2 : ℚ) ^ max ((3 : Int) - 23) (-149)) = 9437183 + 1 :=
    roundHalfEven_up (by norm_num [f32_0_9]) (by norm_num [f32_0_9])
  have h := roundF32_eval (x := (10 : ℚ) * f32_0_9) (k := 3)
    (by norm_num [f32_0_9]) (by norm_num [f32_0_9]) hr
  have h10 : roundF32 ((10 : Int) : ℚ) = ((10 : Int) : ℚ) := roundF32_intCast (by norm_num) (by norm_num)
  unfold renewAfter mulF32 float32OfInt
  rw [h10]
  push_cast
  rw [h]
  have : ((9437183 + 1 : Int) : ℚ) * (2 : ℚ) ^ max ((3 : Int) - 23) (-149) = ((9 : Int) : ℚ) := by
    norm_num
  rw [this, intOfFloat_intCast]

theorem renewAfter_10_0_95 : renewAfter 10 f32_0_95 = 9 := by
  have hr : roundHalfEven ((10 : ℚ) * f32_0_95 / (2 : ℚ) ^ max ((3 : Int) - 23) (-149)) = 9961471 + 1 :=
    roundHalfEven_up (by norm_num [f32_0_95]) (by norm_num [f32_0_95])
  have h := roundF32_eval (x := (10 : ℚ) * f32_0_95) (k := 3)
    (by norm_num [f32_0_95]) (by norm_num [f32_0_95]) hr
  have h10 : roundF32 ((10 : Int) : ℚ) = ((10 : Int) : ℚ) := roundF32_intCast (by norm_num) (by norm_num)
  unfold renewAfter mulF32 float32OfInt
  rw [h10]
  push_cast
  rw [h]
  have : ((9961471 + 1 : Int) : ℚ) * (2 : ℚ) ^ max ((3 : Int) - 23) (-149) = 19 / 2 := by
    norm_num
  rw [this]
  unfold intOfFloat
  rw [if_pos (by norm_num)]
  exact Int.floor_eq_iff.mpr ⟨by norm_num, by norm_num⟩

theorem float32OfInt_16777217 : float32OfInt 16777217 = 16777216 := by
  have hr : roundHalfEven ((16777217 : ℚ) / (2 : ℚ) ^ max ((24 : Int) - 23) (-149)) = 8388608 := by
    rw [roundHalfEven_tie (f := 8388608) (by norm_num)]
    norm_num
  have h := roundF32_eval (x := (16777217 : ℚ)) (k := 24) (by norm_num) (by norm_num) hr
  unfold float32OfInt
  push_cast
  rw [h]
  norm_num

theorem float32OfInt_16777219 : float32OfInt 16777219 = 16777220 := by
  have hr : roundHalfEven ((16777219 : ℚ) / (2 : ℚ) ^ max ((24 : Int) - 23) (-149)) = 8388610 := by
    rw [roundHalfEven_tie (f := 8388609) (by norm_num)]
    norm_num
  have h := roundF32_eval (x := (16777219 : ℚ)) (k := 24) (by norm_num) (by norm_num) hr
  unfold float32OfInt
  push_cast
  rw [h]
  norm_num

theorem renewAfter_16777217_1 : renewAfter 16777217 1 = 16777216 := by
  unfold renewAfter mulF32
  rw [float32OfInt_16777217, mul_one]
  have h : roundF32 (((16777216 : Int) : ℚ)) = ((16777216 : Int) : ℚ) :=
    roundF32_intCast (by norm_num) (by norm_num)
  have e : (16777216 : ℚ) = ((16777216 : Int) : ℚ) := by norm_num
  rw [e, h, intOfFloat_intCast]

theorem renewAfter_16777219_1 : renewAfter 16777219 1 = 16777220 := by
  have hr : roundHalfEven ((16777220 : ℚ) / (2 : ℚ) ^ max ((24 : Int) - 23) (-149)) = 8388610 :=
    roundHalfEven_down (by norm_num) (by norm_num)
  have h := roundF32_eval (x := (16777220 : ℚ)) (k := 24) (by norm_num) (by norm_num) hr
  unfold renewAfter mulF32
  rw [float32OfInt_16777219, mul_one, h]
  have e : ((8388610 : Int) : ℚ) * (2 : ℚ) ^ max ((24 : Int) - 23) (-149) = ((16777220 : Int) : ℚ) := by
    norm_num
  rw [e, intOfFloat_intCast]

theorem float32OfInt_9223372037 : float32OfInt 9223372037 = 9223371776 := by
  have hr : roundHalfEven ((9223372037 : ℚ) / (2 : ℚ) ^ max ((33 : Int) - 23) (-149)) = 9007199 :=
    roundHalfEven_down (by norm_num) (by norm_num)
  have h := roundF32_eval (x := (9223372037 : ℚ)) (k := 33) (by norm_num) (by norm_num) hr
  unfold float32OfInt
  push_cast
  rw [h]
  norm_num

theorem renewAfter_9223372037_half : renewAfter 9223372037 (1 / 2) = 4611685888 := by
  have hr : roundHalfEven ((4611685888 : ℚ) / (2 : ℚ) ^ max ((32 : Int) - 23) (-149)) = 9007199 :=
    roundHalfEven_down (by norm_num) (by norm_num)
  have h := roundF32_eval (x := (4611685888 : ℚ)) (k := 32) (by norm_num) (by norm_num) hr
  unfold renewAfter mulF32
  rw [float32OfInt_9223372037]
  have e1 : (9223371776 : ℚ) * (1 / 2) = 4611685888 := by norm_num
  rw [e1, h]
  have e2 : ((9007199 : Int) : ℚ) * (2 : ℚ) ^ max ((32 : Int) - 23) (-149)
      = ((4611685888 : Int) : ℚ) := by norm_num
  rw [e2, intOfFloat_intCast]

/-- A `float32` modifier below 1 is at most `1 - 2 ^ (-24)`, the largest binary32
value below 1. -/
theorem f32_lt_one {m : ℚ} (hm : roundF32 m = m) (h1 : m < 1) : m ≤ 1 - 1 / 2 ^ 24 := by
  rcases le_or_lt m (1 / 2) with hs | hs
  · exact le_trans hs (by norm_num)
  · have hq24 : m / (2 : ℚ) ^ max ((-1 : Int) - 23) (-149) ≤ (((2 : Int) ^ 24 : Int) : ℚ) := by
      have : (2 : ℚ) ^ max ((-1 : Int) - 23) (-149) = 1 / 2 ^ 24 := by norm_num
      rw [this]
      push_cast
      rw [div_le_iff₀ (by norm_num)]
      linarith
    have hk := roundHalfEven_le hq24
    have h := roundF32_eval (x := m) (k := -1) (r := roundHalfEven
      (m / (2 : ℚ) ^ max ((-1 : Int) - 23) (-149))) (by norm_num; linarith) (by norm_num; linarith) rfl
    rw [hm] at h
    have hu : (2 : ℚ) ^ max ((-1 : Int) - 23) (-149) = 1 / 2 ^ 24 := by norm_num
    rw [hu] at h
    rcases eq_or_lt_of_le hk with he | hl
    · rw [hu] at he
      rw [he] at h
      push_cast at h
      norm_num at h
      linarith
    · rw [hu] at hl
      have hl2 : roundHalfEven (m / (1 / 2 ^ 24)) ≤ 2 ^ 24 - 1 := by omega
      have hl3 : (roundHalfEven (m / (1 / 2 ^ 24)) : ℚ) ≤ 2 ^ 24 - 1 := by exact_mod_cast hl2
      rw [h]
      have : (roundHalfEven (m / (1 / 2 ^ 24)) : ℚ) * (1 / 2 ^ 24) ≤ (2 ^ 24 - 1) * (1 / 2 ^ 24) :=
        mul_le_mul_of_nonneg_right hl3 (by norm_num)
      linarith

theorem roundF32_f32_0_9 : roundF32 f32_0_9 = f32_0_9 := by
  have hr : roundHalfEven (f32_0_9 / (2 : ℚ) ^ max ((-1 : Int) - 23) (-149)) = 15099494 :=
    roundHalfEven_down (by norm_num [f32_0_9]) (by norm_num [f32_0_9])
  rw [roundF32_eval (x := f32_0_9) (k := -1) (by norm_num [f32_0_9]) (by norm_num [f32_0_9]) hr]
  norm_num [f32_0_9]

/-! ## Shape of the steps -/

theorem updateCert_error_state {X : String → String → Except String Certificate} {p p1 : pki}
    {reply : Reply} {now : Time} {e : String} (h : updateCert X p reply now = Step.error e p1) :
    p1 = { p with client := p.client.Write p.path p.data } := by
  unfold updateCert at h
  rcases reply with err | _ | s
  · simp only [Step.error.injEq] at h
    exact h.2.symm
  · simp only [Step.error.injEq] at h
    exact h.2.symm
  · simp only at h
    split at h
    · cases h
    · split at h
      · cases h
      · split at h
        · cases h
        · split at h
          · simp only [Step.error.injEq] at h
            exact h.2.symm
          · cases h

theorem renewIteration_of_ok {X : String → String → Except String Certificate} {p p1 : pki}
    {reply : Reply} {now : Time} {d d0 : Duration} (nowCheck : Time) (ht : p.timer = some d0)
    (hu : updateCert X p reply now = Step.ok d p1) :
    renewIteration X p (Wake.timer reply now nowCheck) = Task.looping { p1 with timer := some d } := by
  simp only [renewIteration, ht, hu]

theorem renewIteration_of_panic {X : String → String → Except String Certificate} {p p1 : pki}
    {reply : Reply} {now : Time} {msg : String} {d0 : Duration} (nowCheck : Time)
    (ht : p.timer = some d0) (hu : updateCert X p reply now = Step.panic msg p1) :
    renewIteration X p (Wake.timer reply now nowCheck) = Task.panicked msg p1 := by
  simp only [renewIteration, ht, hu]

theorem renewIteration_of_error {X : String → String → Except String Certificate} {p p1 : pki}
    {reply : Reply} {now : Time} {e : String} {d0 : Duration} (nowCheck : Time)
    (ht : p.timer = some d0) (hu : updateCert X p reply now = Step.error e p1) :
    renewIteration X p (Wake.timer reply now nowCheck) =
      if nowCheck < p1.expiresAt then Task.looping { p1 with timer := some p1.retryDelay }
      else Task.panicked "get certificate retries exceeded" p1 := by
  simp only [renewIteration, ht, hu]

theorem getCertificate_fst (p : pki) (chi : Option ClientHelloInfo) :
    (getCertificate p chi).1 = p := by
  simp only [getCertificate, pki.RLock, pki.RUnlock]
  split_ifs <;> simp

theorem getCertificate_snd (p : pki) (chi : Option ClientHelloInfo) :
    (getCertificate p chi).2 =
      if p.cert = none then (none, some "certificate not loaded") else (p.cert, none) := by
  simp only [getCertificate, pki.RLock, pki.RUnlock]
  split_ifs <;> rfl

theorem updateCert_ok_fresh {X : String → String → Except String Certificate} {p p1 : pki}
    {reply : Reply} {now : Time} {d : Duration} (h : updateCert X p reply now = Step.ok d p1) :
    p1.Fresh = true := by
  unfold updateCert at h
  rcases reply with err | _ | s
  · cases h
  · cases h
  · simp only at h
    split at h
    · cases h
    · split at h
      · cases h
      · split at h
        · cases h
        · split at h
          · cases h
          · simp only [Step.ok.injEq] at h
            rw [← h.2]
            simp [pki.Fresh, pki.Lock, pki.Unlock]

/-- Every provider the constructor returns has a fresh record. -/
theorem NewVaultPKIProvider_fresh (X : String → String → Except String Certificate)
    (N : String → Except String Client) (c : VaultPKIConfig) (reply : Reply) (now : Time)
    (p : pki) (h : NewVaultPKIProvider X N c reply now = Constructed.ok p) : p.Fresh = true := by
  unfold NewVaultPKIProvider at h
  simp only at h
  split at h
  · cases h
  · split at h
    · cases h
    · cases h
    · rename_i hu
      have hf := updateCert_ok_fresh hu
      simp only [Constructed.ok.injEq] at h
      rw [← h]
      exact hf

/-- The renewal step keeps the record fresh. -/
theorem renewIteration_fresh (X : String → String → Except String Certificate) (p p2 : pki)
    (w : Wake) (hp : p.Fresh = true) (h : renewIteration X p w = Task.looping p2) :
    p2.Fresh = true := by
  unfold renewIteration at h
  split at h
  · cases h
  · cases w with
    | done => cases h
    | timer reply now nowCheck =>
      simp only at h
      split at h
      · cases h
      · rename_i hu
        have hp1 := updateCert_error_state hu
        split_ifs at h
        simp only [Task.looping.injEq] at h
        rw [← h, hp1]
        exact hp
      · rename_i hu
        have hf := updateCert_ok_fresh hu
        simp only [Task.looping.injEq] at h
        rw [← h]
        exact hf

/-! ## The accessor -/

/-- C2: `getCertificate` returns the failure "certificate not loaded" together
with a nil certificate exactly when no record is installed; in every other state
it returns the installed record and a nil error; and its answer does not depend
on the `ClientHelloInfo` it is given. -/
theorem getCertificate_loaded_iff (p : pki) (chi : Option ClientHelloInfo) :
    ((getCertificate p chi).2 = (none, some "certificate not loaded") ↔ p.cert = none) ∧
    (p.cert = none ∨ (getCertificate p chi).2 = (p.cert, none)) ∧
    (∀ chi2 : Option ClientHelloInfo, (getCertificate p chi2).2 = (getCertificate p chi).2) := by
  refine ⟨?_, ?_, ?_⟩
  · rw [getCertificate_snd]
    constructor
    · intro h
      by_contra hc
      rw [if_neg hc] at h
      simp at h
    · intro h
      rw [if_pos h]
  · rcases h : p.cert with _ | c
    · exact Or.inl rfl
    · right
      rw [getCertificate_snd, if_neg (by simp [h]), h]
  · intro chi2
    rw [getCertificate_snd, getCertificate_snd]

/-- C9: `getCertificate` is a pure read. The state after the call is the state
before it (installed record, stored expiry, timer, and the log of issuance
requests included), and a second call made right after the first returns the
same pair as the first. -/
theorem getCertificate_pure (p : pki) (chi chi2 : Option ClientHelloInfo) :
    (getCertificate p chi).1 = p ∧
    (getCertificate p chi).1.cert = p.cert ∧
    (getCertificate p chi).1.expiresAt = p.expiresAt ∧
    (getCertificate p chi).1.timer = p.timer ∧
    (getCertificate p chi).1.client.writes = p.client.writes ∧
    (getCertificate (getCertificate p chi).1 chi2).2 = (getCertificate p chi).2 := by
  rw [getCertificate_fst]
  refine ⟨rfl, rfl, rfl, rfl, rfl, ?_⟩
  rw [getCertificate_snd, getCertificate_snd]

/-! ## The renewal step -/

/-- C4: when the attempt of a timer wake-up returns an error and the clock is
strictly before the stored expiry, the background task keeps looping with the
timer rearmed for exactly `retryDelay`; the installed record and the stored
expiry are unchanged, and `getCertificate` answers as before the attempt. -/
theorem renewIteration_retry (X : String → String → Except String Certificate) (p p1 : pki)
    (reply : Reply) (now nowCheck : Time) (e : String) (d0 : Duration)
    (ht : p.timer = some d0)
    (hfail : updateCert X p reply now = Step.error e p1)
    (hbefore : nowCheck < p.expiresAt) :
    ∃ p2, renewIteration X p (Wake.timer reply now nowCheck) = Task.looping p2 ∧
      p2.timer = some p.retryDelay ∧ p2.cert = p.cert ∧ p2.expiresAt = p.expiresAt ∧
      ∀ chi : Option ClientHelloInfo, (getCertificate p2 chi).2 = (getCertificate p chi).2 := by
  have hp1 := updateCert_error_state hfail
  subst hp1
  refine ⟨{ p with client := p.client.Write p.path p.data, timer := some p.retryDelay }, ?_,
    rfl, rfl, rfl, ?_⟩
  · simp only [renewIteration, ht, hfail]
    rw [if_pos hbefore]
  · intro chi
    rw [getCertificate_snd, getCertificate_snd]

/-- Witness of C4: on `engine0` the attempt at 9 s meets a transport error, one
second before the expiry. -/
theorem renewIteration_retry_witness :
    engine0.timer = some 9000000000 ∧
    updateCert acceptPair engine0 replyDown 9000000000 =
      Step.error "connection refused"
        { engine0 with client := engine0.client.Write engine0.path engine0.data } ∧
    (9000000000 : Time) < engine0.expiresAt ∧
    ∃ p2, renewIteration acceptPair engine0 (Wake.timer replyDown 9000000000 9000000000) =
        Task.looping p2 ∧
      p2.timer = some engine0.retryDelay ∧ p2.cert = engine0.cert ∧
      p2.expiresAt = engine0.expiresAt ∧
      ∀ chi : Option ClientHelloInfo,
        (getCertificate p2 chi).2 = (getCertificate engine0 chi).2 :=
  ⟨rfl, rfl, by decide,
    renewIteration_retry acceptPair engine0 _ replyDown 9000000000 9000000000
      "connection refused" 9000000000 rfl rfl (by decide)⟩

theorem testData_issuing_ca : testData.lookup "issuing_ca" = some (Value.str "CA") := by
  decide

theorem testData_certificate : testData.lookup "certificate" = some (Value.str "CERT") := by
  decide

theorem testData_private_key : testData.lookup "private_key" = some (Value.str "KEY") := by
  decide

/-! ## The renewal interval -/

/-- C1, as amended: for a lease duration `L` with `1 ≤ L ≤ 2 ^ 24` seconds and a
renewal modifier `m` in `(0, 1]`, a successful `updateCert` returns `e` seconds
where `e` is the integer part of the binary32 rounding of `L * m`; this is
`floor (L * m)` or `floor (L * m) + 1`. -/
theorem updateCert_interval (X : String → String → Except String Certificate) (p : pki)
    (s : Secret) (now : Time) (ca crt key : String) (c : Certificate)
    (hca : s.Data.lookup "issuing_ca" = some (Value.str ca))
    (hcrt : s.Data.lookup "certificate" = some (Value.str crt))
    (hkey : s.Data.lookup "private_key" = some (Value.str key))
    (hX : X (crt ++ "\n" ++ ca) key = Except.ok c)
    (hL1 : 1 ≤ s.LeaseDuration) (hL2 : s.LeaseDuration ≤ 2 ^ 24)
    (hm0 : 0 < p.renewModifier) (hm1 : p.renewModifier ≤ 1) :
    ∃ (e : Int) (p2 : pki),
      updateCert X p (Except.ok (some s)) now = Step.ok (1000000000 * e) p2 ∧
      e = ⌊roundF32 ((s.LeaseDuration : ℚ) * p.renewModifier)⌋ ∧
      ⌊(s.LeaseDuration : ℚ) * p.renewModifier⌋ ≤ e ∧
      e ≤ ⌊(s.LeaseDuration : ℚ) * p.renewModifier⌋ + 1 := by
  obtain ⟨hb1, hb2, hb3⟩ := renewAfter_bounds hL1 hL2 hm0 hm1
  have hnn : 0 ≤ ⌊(s.LeaseDuration : ℚ) * p.renewModifier⌋ :=
    Int.floor_nonneg.mpr (mul_nonneg (by exact_mod_cast (by omega : 0 ≤ s.LeaseDuration)) hm0.le)
  have h24 : (2 : Int) ^ 24 = 16777216 := by norm_num
  have hu := updateCert_ok X p s now hca hcrt hkey hX
  rw [seconds_eq (by omega) (by omega)] at hu
  exact ⟨_, _, hu, renewAfter_eq hL1 hL2 hm0, hb1, hb2⟩

/-- Witness of C1 as amended: the lease of 10 s and the modifier `float32(0.1)`
of the test. -/
theorem updateCert_interval_witness :
    testSecret.Data.lookup "issuing_ca" = some (Value.str "CA") ∧
    testSecret.Data.lookup "certificate" = some (Value.str "CERT") ∧
    testSecret.Data.lookup "private_key" = some (Value.str "KEY") ∧
    acceptPair ("CERT" ++ "\n" ++ "CA") "KEY" = Except.ok testCert ∧
    1 ≤ testSecret.LeaseDuration ∧ testSecret.LeaseDuration ≤ 2 ^ 24 ∧
    0 < (engineWith f32_0_1).renewModifier ∧ (engineWith f32_0_1).renewModifier ≤ 1 ∧
    ∃ (e : Int) (p2 : pki),
      updateCert acceptPair (engineWith f32_0_1) (Except.ok (some testSecret)) 0 =
        Step.ok (1000000000 * e) p2 ∧
      e = ⌊roundF32 ((testSecret.LeaseDuration : ℚ) * (engineWith f32_0_1).renewModifier)⌋ ∧
      ⌊(testSecret.LeaseDuration : ℚ) * (engineWith f32_0_1).renewModifier⌋ ≤ e ∧
      e ≤ ⌊(testSecret.LeaseDuration : ℚ) * (engineWith f32_0_1).renewModifier⌋ + 1 :=
  ⟨testData_issuing_ca, testData_certificate, testData_private_key, rfl,
    by decide, by decide, by norm_num [engineWith, f32_0_1], by norm_num [engineWith, f32_0_1],
    updateCert_interval acceptPair (engineWith f32_0_1) testSecret 0 "CA" "CERT" "KEY" testCert
      testData_issuing_ca testData_certificate testData_private_key rfl
      (by decide) (by decide) (by norm_num [engineWith, f32_0_1])
      (by norm_num [engineWith, f32_0_1])⟩

/-- C1, as stated, fails. With a lease of 10 s and the modifier `float32(0.9)`
(a binary32 value in `(0, 1]`), a successful `updateCert` returns 9 s although
`floor (10 * m) = 8`; with a lease of `2 ^ 24 + 1` s and the modifier `1` it
returns `2 ^ 24` s, one second less than `floor (L * 1)`. -/
theorem updateCert_interval_not_floor :
    (roundF32 f32_0_9 = f32_0_9 ∧ 0 < f32_0_9 ∧ f32_0_9 ≤ 1 ∧
      (∃ p2, updateCert acceptPair (engineWith f32_0_9) (Except.ok (some (secretWithLease 10))) 0
        = Step.ok (1000000000 * 9) p2) ∧
      ⌊((10 : Int) : ℚ) * f32_0_9⌋ = 8) ∧
    ((∃ p2, updateCert acceptPair (engineWith 1) (Except.ok (some (secretWithLease 16777217))) 0
        = Step.ok (1000000000 * 16777216) p2) ∧
      ⌊((16777217 : Int) : ℚ) * 1⌋ = 16777217) := by
  have hu := updateCert_ok acceptPair (engineWith f32_0_9) (secretWithLease 10) 0
    testData_issuing_ca testData_certificate testData_private_key rfl
  have h : renewAfter (secretWithLease 10).LeaseDuration (engineWith f32_0_9).renewModifier = 9 :=
    renewAfter_10_0_9
  rw [h, seconds_eq (by norm_num) (by norm_num)] at hu
  have hv := updateCert_ok acceptPair (engineWith 1) (secretWithLease 16777217) 0
    testData_issuing_ca testData_certificate testData_private_key rfl
  have h2 : renewAfter (secretWithLease 16777217).LeaseDuration (engineWith 1).renewModifier
      = 16777216 := renewAfter_16777217_1
  rw [h2, seconds_eq (by norm_num) (by norm_num)] at hv
  exact ⟨⟨roundF32_f32_0_9, by norm_num [f32_0_9], by norm_num [f32_0_9], ⟨_, hu⟩,
      Int.floor_eq_iff.mpr ⟨by norm_num [f32_0_9], by norm_num [f32_0_9]⟩⟩,
    ⟨_, hv⟩, Int.floor_eq_iff.mpr ⟨by norm_num, by norm_num⟩⟩

/-- The scenario of the test: a lease of 10 s and the modifier `float32(0.1)`
give a renewal interval of 1 s. -/
theorem updateCert_interval_test :
    ∃ p2, updateCert acceptPair (engineWith f32_0_1) (Except.ok (some testSecret)) 0
      = Step.ok (1000000000 * 1) p2 := by
  have hu := updateCert_ok acceptPair (engineWith f32_0_1) testSecret 0
    testData_issuing_ca testData_certificate testData_private_key rfl
  have h : renewAfter testSecret.LeaseDuration (engineWith f32_0_1).renewModifier = 1 :=
    renewAfter_10_0_1
  rw [h, seconds_eq (by norm_num) (by norm_num)] at hu
  exact ⟨_, hu⟩

/-- C10, as amended: for a lease duration `L` with `1 ≤ L ≤ 9223372036` seconds
(so that `L` seconds fits a `time.Duration`) and a renewal modifier `m` in
`(0, 1]`, provided `m ≤ 1 - 2 ^ (-24)` (every `float32` below 1) or the
conversion `float32(L)` does not exceed `L` (every `L ≤ 2 ^ 24`), the interval a
successful `updateCert` returns is at most `L` seconds, so that, counted from the
clock reading `now` of the call, it ends no later than the expiry `now + L`
seconds which the same call stores. -/
theorem updateCert_interval_le_lease (X : String → String → Except String Certificate)
    (p : pki) (s : Secret) (now : Time) (ca crt key : String) (c : Certificate)
    (hca : s.Data.lookup "issuing_ca" = some (Value.str ca))
    (hcrt : s.Data.lookup "certificate" = some (Value.str crt))
    (hkey : s.Data.lookup "private_key" = some (Value.str key))
    (hX : X (crt ++ "\n" ++ ca) key = Except.ok c)
    (hL1 : 1 ≤ s.LeaseDuration) (hL2 : s.LeaseDuration ≤ 9223372036)
    (hm0 : 0 < p.renewModifier) (hm1 : p.renewModifier ≤ 1)
    (hm : p.renewModifier ≤ 1 - 1 / 2 ^ 24 ∨
      float32OfInt s.LeaseDuration ≤ (s.LeaseDuration : ℚ)) :
    ∃ (d : Duration) (p2 : pki),
      updateCert X p (Except.ok (some s)) now = Step.ok d p2 ∧
      0 ≤ d ∧
      d ≤ 1000000000 * s.LeaseDuration ∧
      p2.expiresAt = now + 1000000000 * s.LeaseDuration ∧
      now + d ≤ p2.expiresAt := by
  obtain ⟨hb0, hb3⟩ := renewAfter_le_lease hL1 hm0 hm1 hm
  have hu := updateCert_ok X p s now hca hcrt hkey hX
  rw [seconds_eq (n := renewAfter s.LeaseDuration p.renewModifier) (by omega) (by omega),
    seconds_eq (n := s.LeaseDuration) (by omega) (by omega)] at hu
  have hd : 1000000000 * renewAfter s.LeaseDuration p.renewModifier
      ≤ 1000000000 * s.LeaseDuration := by omega
  have hd0 : 0 ≤ 1000000000 * renewAfter s.LeaseDuration p.renewModifier := by omega
  exact ⟨_, _, hu, hd0, hd, rfl, Int.add_le_add_left hd now⟩

/-- Witness of C10 as amended: a lease of one year, above `2 ^ 24` seconds, and
the default modifier. -/
theorem updateCert_interval_le_lease_witness :
    (secretWithLease 31536000).Data.lookup "issuing_ca" = some (Value.str "CA") ∧
    (secretWithLease 31536000).Data.lookup "certificate" = some (Value.str "CERT") ∧
    (secretWithLease 31536000).Data.lookup "private_key" = some (Value.str "KEY") ∧
    acceptPair ("CERT" ++ "\n" ++ "CA") "KEY" = Except.ok testCert ∧
    1 ≤ (secretWithLease 31536000).LeaseDuration ∧
    (secretWithLease 31536000).LeaseDuration ≤ 9223372036 ∧
    0 < engine0.renewModifier ∧ engine0.renewModifier ≤ 1 ∧
    (engine0.renewModifier ≤ 1 - 1 / 2 ^ 24 ∨
      float32OfInt (secretWithLease 31536000).LeaseDuration
        ≤ ((secretWithLease 31536000).LeaseDuration : ℚ)) ∧
    ∃ (d : Duration) (p2 : pki),
      updateCert acceptPair engine0 (Except.ok (some (secretWithLease 31536000))) 7
        = Step.ok d p2 ∧
      0 ≤ d ∧
      d ≤ 1000000000 * (secretWithLease 31536000).LeaseDuration ∧
      p2.expiresAt = 7 + 1000000000 * (secretWithLease 31536000).LeaseDuration ∧
      7 + d ≤ p2.expiresAt :=
  ⟨testData_issuing_ca, testData_certificate, testData_private_key, rfl,
    by decide, by decide, by norm_num [engine0, f32_0_95], by norm_num [engine0, f32_0_95],
    Or.inl (by norm_num [engine0, f32_0_95]),
    updateCert_interval_le_lease acceptPair engine0 (secretWithLease 31536000) 7 "CA" "CERT"
      "KEY" testCert testData_issuing_ca testData_certificate testData_private_key rfl
      (by decide) (by decide) (by norm_num [engine0, f32_0_95])
      (by norm_num [engine0, f32_0_95]) (Or.inl (by norm_num [engine0, f32_0_95]))⟩

/-- C10, as stated, fails. With a lease of `2 ^ 24 + 3 = 16777219` s and the
modifier `1`, a successful `updateCert` at instant 0 returns 16777220 s while it
stores the expiry 16777219 s: the interval exceeds the lease by one second. With
a lease of 9223372037 s and the modifier `1 / 2` it returns 4611685888 s while
the stored expiry, overflowed, is `-9223372036709551616` ns: the interval ends
after the stored expiry. -/
theorem updateCert_interval_exceeds_lease :
    (∃ p2, updateCert acceptPair (engineWith 1) (Except.ok (some (secretWithLease 16777219))) 0
        = Step.ok (1000000000 * 16777220) p2 ∧
      p2.expiresAt = 1000000000 * 16777219 ∧
      (0 : ℚ) < (engineWith 1).renewModifier ∧ (engineWith 1).renewModifier ≤ 1) ∧
    (∃ p2, updateCert acceptPair (engineWith (1 / 2))
          (Except.ok (some (secretWithLease 9223372037))) 0
        = Step.ok (1000000000 * 4611685888) p2 ∧
      p2.expiresAt = -9223372036709551616 ∧
      p2.expiresAt < 0 + 1000000000 * 4611685888 ∧
      (0 : ℚ) < (engineWith (1 / 2)).renewModifier ∧ (engineWith (1 / 2)).renewModifier ≤ 1) := by
  have hu := updateCert_ok acceptPair (engineWith 1) (secretWithLease 16777219) 0
    testData_issuing_ca testData_certificate testData_private_key rfl
  have h : renewAfter (secretWithLease 16777219).LeaseDuration (engineWith 1).renewModifier
      = 16777220 := renewAfter_16777219_1
  have hl : (secretWithLease 16777219).LeaseDuration = 16777219 := rfl
  rw [h, hl, seconds_eq (n := 16777220) (by norm_num) (by norm_num),
    seconds_eq (n := 16777219) (by norm_num) (by norm_num)] at hu
  have hv := updateCert_ok acceptPair (engineWith (1 / 2)) (secretWithLease 9223372037) 0
    testData_issuing_ca testData_certificate testData_private_key rfl
  have h2 : renewAfter (secretWithLease 9223372037).LeaseDuration
      (engineWith (1 / 2)).renewModifier = 4611685888 := renewAfter_9223372037_half
  have hs : seconds (secretWithLease 9223372037).LeaseDuration = -9223372036709551616 := by
    decide
  rw [h2, hs, seconds_eq (n := 4611685888) (by norm_num) (by norm_num)] at hv
  exact ⟨⟨_, hu, by norm_num, by norm_num [engineWith], by norm_num [engineWith]⟩,
    ⟨_, hv, by decide, by decide, by norm_num [engineWith], by norm_num [engineWith]⟩⟩

/-! ## A successful renewal -/

/-- C3, as amended: when the attempt of a timer wake-up succeeds at instant `now`
with a lease duration `L` whose count of nanoseconds fits a `time.Duration`
(`|L| ≤ 9223372036` seconds), and the renewal modifier is a finite `float32` for
which the integer part of `float32(L) * renewModifier` fits an `int`, the step
installs record and expiry together: the installed record is a fresh one holding
the pair parsed from `certificate + "\n" + issuing_ca` and `private_key`, the
stored expiry is `now + L` seconds, the timer is rearmed for the interval
computed from `L` and the modifier (that number of seconds as a
`time.Duration`), and `getCertificate` returns the new record, which is not the
record installed before. -/
theorem renewIteration_success (X : String → String → Except String Certificate) (p : pki)
    (s : Secret) (now nowCheck : Time) (ca crt key : String) (c : Certificate) (d0 : Duration)
    (hca : s.Data.lookup "issuing_ca" = some (Value.str ca))
    (hcrt : s.Data.lookup "certificate" = some (Value.str crt))
    (hkey : s.Data.lookup "private_key" = some (Value.str key))
    (hX : X (crt ++ "\n" ++ ca) key = Except.ok c)
    (ht : p.timer = some d0)
    (hL1 : -9223372036 ≤ s.LeaseDuration) (hL2 : s.LeaseDuration ≤ 9223372036)
    (hfit : -2 ^ 63 ≤ renewAfter s.LeaseDuration p.renewModifier ∧
      renewAfter s.LeaseDuration p.renewModifier < 2 ^ 63)
    (hwf : p.Fresh = true) :
    ∃ p2, renewIteration X p (Wake.timer (Except.ok (some s)) now nowCheck) = Task.looping p2 ∧
      p2.cert = some ⟨p.allocs, c⟩ ∧
      p2.expiresAt = now + 1000000000 * s.LeaseDuration ∧
      p2.timer = some (wrapInt64 (1000000000 * renewAfter s.LeaseDuration p.renewModifier)) ∧
      (∀ chi : Option ClientHelloInfo, (getCertificate p2 chi).2 = (some ⟨p.allocs, c⟩, none)) ∧
      p2.cert ≠ p.cert := by
  have hu := updateCert_ok X p s now hca hcrt hkey hX
  have hsec : seconds (renewAfter s.LeaseDuration p.renewModifier)
      = wrapInt64 (1000000000 * renewAfter s.LeaseDuration p.renewModifier) := by
    unfold seconds Second
    rw [wrapInt64_eq hfit.1 hfit.2]
  rw [seconds_eq (n := s.LeaseDuration) hL1 hL2, hsec] at hu
  refine ⟨_, renewIteration_of_ok nowCheck ht hu, rfl, rfl, rfl, ?_, ?_⟩
  · intro chi
    rw [getCertificate_snd]
    rfl
  · show some (⟨p.allocs, c⟩ : CertRef) ≠ p.cert
    intro h
    unfold pki.Fresh at hwf
    rw [← h] at hwf
    simp at hwf

theorem renewAfter_test_fits :
    -2 ^ 63 ≤ renewAfter testSecret.LeaseDuration engine0.renewModifier ∧
      renewAfter testSecret.LeaseDuration engine0.renewModifier < 2 ^ 63 := by
  have h : renewAfter testSecret.LeaseDuration engine0.renewModifier = 9 := renewAfter_10_0_95
  rw [h]
  norm_num

/-- Witness of C3 as amended: on `engine0` the attempt at 9 s receives the
response of the test. -/
theorem renewIteration_success_witness :
    testSecret.Data.lookup "issuing_ca" = some (Value.str "CA") ∧
    testSecret.Data.lookup "certificate" = some (Value.str "CERT") ∧
    testSecret.Data.lookup "private_key" = some (Value.str "KEY") ∧
    acceptPair ("CERT" ++ "\n" ++ "CA") "KEY" = Except.ok testCert ∧
    engine0.timer = some 9000000000 ∧
    -9223372036 ≤ testSecret.LeaseDuration ∧ testSecret.LeaseDuration ≤ 9223372036 ∧
    (-2 ^ 63 ≤ renewAfter testSecret.LeaseDuration engine0.renewModifier ∧
      renewAfter testSecret.LeaseDuration engine0.renewModifier < 2 ^ 63) ∧
    engine0.Fresh = true ∧
    ∃ p2, renewIteration acceptPair engine0
        (Wake.timer (Except.ok (some testSecret)) 9000000000 9000000000) = Task.looping p2 ∧
      p2.cert = some ⟨engine0.allocs, testCert⟩ ∧
      p2.expiresAt = 9000000000 + 1000000000 * testSecret.LeaseDuration ∧
      p2.timer = some (wrapInt64
        (1000000000 * renewAfter testSecret.LeaseDuration engine0.renewModifier)) ∧
      (∀ chi : Option ClientHelloInfo,
        (getCertificate p2 chi).2 = (some ⟨engine0.allocs, testCert⟩, none)) ∧
      p2.cert ≠ engine0.cert :=
  ⟨testData_issuing_ca, testData_certificate, testData_private_key, rfl, rfl,
    by decide, by decide, renewAfter_test_fits, rfl,
    renewIteration_success acceptPair engine0 testSecret 9000000000 9000000000 "CA" "CERT" "KEY"
      testCert 9000000000 testData_issuing_ca testData_certificate testData_private_key rfl rfl
      (by decide) (by decide) renewAfter_test_fits rfl⟩

/-- C3, as stated, fails. A successful attempt at instant 0 whose response
carries the lease duration 9223372037 s overflows `time.Second *
time.Duration(L)`: the stored expiry is `-9223372036709551616` ns, in the past,
and not `0 + 9223372037` seconds. -/
theorem renewIteration_success_overflow :
    ∃ p2, renewIteration acceptPair engine0
        (Wake.timer (Except.ok (some (secretWithLease 9223372037))) 0 0) = Task.looping p2 ∧
      p2.expiresAt = -9223372036709551616 ∧
      p2.expiresAt ≠ 0 + 1000000000 * 9223372037 := by
  have hu := updateCert_ok acceptPair engine0 (secretWithLease 9223372037) 0
    testData_issuing_ca testData_certificate testData_private_key rfl
  have hs : seconds (secretWithLease 9223372037).LeaseDuration = -9223372036709551616 := by
    decide
  rw [hs] at hu
  have ht : engine0.timer = some 9000000000 := rfl
  exact ⟨_, renewIteration_of_ok 0 ht hu, by decide, by decide⟩

/-! ## Construction -/

/-- The constructor, once the client exists: the result is decided by the first
`updateCert`, made on the freshly configured state. -/
theorem NewVaultPKIProvider_testClient (X : String → String → Except String Certificate)
    (c : VaultPKIConfig) (reply : Reply) (now : Time) (hA : c.Address ≠ "") (hR : c.RetryDelay = 0) :
    NewVaultPKIProvider X testNewClient c reply now =
      match updateCert X
        { mu := ⟨false, 0⟩
          cert := none
          client := ⟨c.Address, c.Token, []⟩
          timer := none
          expiresAt := zeroTime
          path := c.Path ++ "/issue/" ++ c.Role
          data := [("common_name", Value.str (if c.Path = "" then "pki" else c.CN)),
                   ("ip_sans", Value.str (String.intercalate "," c.AdvertisedIPs))]
          renewModifier := if c.RenewModifier = 0 then f32_0_95 else c.RenewModifier
          retryDelay := 30000000000
          allocs := 0 } reply now with
      | Step.error err _ => Constructed.error err
      | Step.panic msg _ => Constructed.panic msg
      | Step.ok expiresIn p => Constructed.ok { p with timer := some expiresIn } := by
  unfold NewVaultPKIProvider
  simp only [if_neg hA, testNewClient, Client.SetToken]
  by_cases hP : c.Path = "" <;> by_cases hM : c.RenewModifier = 0 <;>
    simp [hP, hM, hR, Second]

/-- The outcome of `updateCert` when the reply carries `issuing_ca` and
`certificate` as strings but no `private_key`: the type assertion panics. -/
theorem updateCert_missing_key (X : String → String → Except String Certificate) (p : pki)
    (s : Secret) (now : Time) {ca crt : String}
    (hca : s.Data.lookup "issuing_ca" = some (Value.str ca))
    (hcrt : s.Data.lookup "certificate" = some (Value.str crt))
    (hkey : s.Data.lookup "private_key" = none) :
    updateCert X p (Except.ok (some s)) now =
      Step.panic "interface conversion: interface {} is nil, not string"
        { p with client := p.client.Write p.path p.data } := by
  simp only [updateCert, hca, hcrt, hkey, assertString]

/-- The outcome of `updateCert` when the reply carries no `issuing_ca`: the first
type assertion panics. -/
theorem updateCert_missing_ca (X : String → String → Except String Certificate) (p : pki)
    (s : Secret) (now : Time) (hca : s.Data.lookup "issuing_ca" = none) :
    updateCert X p (Except.ok (some s)) now =
      Step.panic "interface conversion: interface {} is nil, not string"
        { p with client := p.client.Write p.path p.data } := by
  simp only [updateCert, hca, assertString]

/-- The outcome of `updateCert` when the reply carries `issuing_ca` but no
`certificate`: the second type assertion panics. -/
theorem updateCert_missing_certificate (X : String → String → Except String Certificate)
    (p : pki) (s : Secret) (now : Time) {ca : String}
    (hca : s.Data.lookup "issuing_ca" = some (Value.str ca))
    (hcrt : s.Data.lookup "certificate" = none) :
    updateCert X p (Except.ok (some s)) now =
      Step.panic "interface conversion: interface {} is nil, not string"
        { p with client := p.client.Write p.path p.data } := by
  simp only [updateCert, hca, hcrt, assertString]

theorem secretWithoutKey_issuing_ca :
    secretWithoutKey.Data.lookup "issuing_ca" = some (Value.str "CA") := by
  decide

theorem secretWithoutKey_certificate :
    secretWithoutKey.Data.lookup "certificate" = some (Value.str "CERT") := by
  decide

theorem secretWithoutKey_private_key : secretWithoutKey.Data.lookup "private_key" = none := by
  decide

/-- C7, evaluated: with the test's configuration and a response that carries
`certificate` and `issuing_ca` but no `private_key`, `NewVaultPKIProvider` does
not return an error: it panics on the type assertion of the missing field. -/
theorem NewVaultPKIProvider_missing_key_panics :
    NewVaultPKIProvider acceptPair testNewClient testConfig
        (Except.ok (some secretWithoutKey)) 0 =
      Constructed.panic "interface conversion: interface {} is nil, not string" := by
  rw [NewVaultPKIProvider_testClient acceptPair testConfig _ 0 (by decide) rfl,
    updateCert_missing_key acceptPair _ secretWithoutKey 0 secretWithoutKey_issuing_ca
      secretWithoutKey_certificate secretWithoutKey_private_key]

/-- C5, evaluated: the timer of `engine0` fires at 9 s, one second before the
stored expiry at 10 s, and the response lacks `private_key`; the background task
panics, with the message of the failed type assertion, although the clock is
before the expiry. -/
theorem renewCertificate_panics_before_expiry :
    (9000000000 : Time) < engine0.expiresAt ∧
    ∃ p2, renewCertificate acceptPair engine0
        [Wake.timer (Except.ok (some secretWithoutKey)) 9000000000 9000000000] =
      Task.panicked "interface conversion: interface {} is nil, not string" p2 := by
  have ht : engine0.timer = some 9000000000 := rfl
  have hu := updateCert_missing_key acceptPair engine0 secretWithoutKey 9000000000
    secretWithoutKey_issuing_ca secretWithoutKey_certificate secretWithoutKey_private_key
  have hi := renewIteration_of_panic 9000000000 ht hu
  have hr : renewCertificate acceptPair engine0
      [Wake.timer (Except.ok (some secretWithoutKey)) 9000000000 9000000000] =
      renewIteration acceptPair engine0
        (Wake.timer (Except.ok (some secretWithoutKey)) 9000000000 9000000000) := by
    simp only [renewCertificate, hi]
  exact ⟨by decide, _, hr.trans hi⟩

/-- C8, evaluated: for a configuration whose `Path` is empty and whose `CN` is
`*.temp.com`, the request built at construction has the path `/issue/temp` and
the common name `pki`, not the configured one; this is also the request sent to
the backend. -/
theorem NewVaultPKIProvider_empty_path_common_name :
    configEmptyPath.Path = "" ∧ configEmptyPath.CN = "*.temp.com" ∧
    ∃ p, NewVaultPKIProvider acceptPair testNewClient configEmptyPath
        (Except.ok (some testSecret)) 0 = Constructed.ok p ∧
      p.path = "/issue/temp" ∧
      p.data = [("common_name", Value.str "pki"),
                ("ip_sans", Value.str "127.0.0.1,192.168.1.1")] ∧
      p.client.writes = [("/issue/temp", [("common_name", Value.str "pki"),
                ("ip_sans", Value.str "127.0.0.1,192.168.1.1")])] := by
  refine ⟨rfl, rfl, ?_⟩
  rw [NewVaultPKIProvider_testClient acceptPair configEmptyPath _ 0 (by decide) rfl,
    updateCert_ok acceptPair _ testSecret 0 testData_issuing_ca testData_certificate
      testData_private_key rfl]
  exact ⟨_, rfl, by decide, by decide, by decide⟩

/-- The request of the test: `Path` "pki", `Role` "temp" and `CN` "*.temp.com"
give the path `pki/issue/temp`, the common name `*.temp.com` and the joined
addresses. -/
theorem NewVaultPKIProvider_test_request :
    ∃ p, NewVaultPKIProvider acceptPair testNewClient testConfig
        (Except.ok (some testSecret)) 0 = Constructed.ok p ∧
      p.client.writes = [("pki/issue/temp", [("common_name", Value.str "*.temp.com"),
                ("ip_sans", Value.str "127.0.0.1,192.168.1.1")])] := by
  rw [NewVaultPKIProvider_testClient acceptPair testConfig _ 0 (by decide) rfl,
    updateCert_ok acceptPair _ testSecret 0 testData_issuing_ca testData_certificate
      testData_private_key rfl]
  exact ⟨_, rfl, by decide⟩

/-! ## Runs of the process -/

theorem Process.run_append (X : String → String → Except String Certificate) (pr : Process)
    (a b : List Event) : Process.run X pr (a ++ b) = Process.run X (Process.run X pr a) b := by
  induction a generalizing pr with
  | nil => rfl
  | cons e es ih => exact ih (Process.step X pr e)

theorem Process.step_panicked (X : String → String → Except String Certificate) (pr : Process)
    (e : Event) {msg : String} {q : pki} (h : pr.task = Task.panicked msg q) :
    Process.step X pr e = pr := by
  cases e <;> simp only [Process.step, h]

theorem Process.run_panicked (X : String → String → Except String Certificate) (pr : Process)
    (es : List Event) {msg : String} {q : pki} (h : pr.task = Task.panicked msg q) :
    Process.run X pr es = pr := by
  induction es with
  | nil => rfl
  | cons e es ih =>
    show Process.run X (Process.step X pr e) es = pr
    rw [Process.step_panicked X pr e h]
    exact ih

/-- A run of handshakes and of failed attempts that all find the clock before
the stored expiry: the task keeps looping on the same record and expiry, the
timer is rearmed for `retryDelay` by the attempts, and every handshake is
answered with the installed record. -/
theorem Process.run_retrying (X : String → String → Except String Certificate) (c : CertRef)
    (es : List Event) (q : pki) (acc : List (Time × Option CertRef × Option String))
    (d : Duration) (ht : q.timer = some d) (hc : q.cert = some c)
    (hf : ∀ e ∈ es, Event.failing X e)
    (hb : ∀ e ∈ es, e.beforeExpiry q.expiresAt = true) :
    ∃ q2, (Process.run X ⟨Task.looping q, acc⟩ es).task = Task.looping q2 ∧
      q2.cert = some c ∧ q2.expiresAt = q.expiresAt ∧ q2.retryDelay = q.retryDelay ∧
      q2.timer = some (if rearmed es = true then q.retryDelay else d) ∧
      (Process.run X ⟨Task.looping q, acc⟩ es).served = acc ++ answers c es := by
  induction es generalizing q acc d with
  | nil => exact ⟨q, rfl, hc, rfl, rfl, by simp [rearmed, ht], by simp [Process.run, answers]⟩
  | cons e es ih =>
    have hf1 := hf e (List.mem_cons_self e es)
    have hb1 := hb e (List.mem_cons_self e es)
    have hf2 : ∀ e2 ∈ es, Event.failing X e2 := fun e2 h2 => hf e2 (List.mem_cons_of_mem e h2)
    have hb2 : ∀ e2 ∈ es, e2.beforeExpiry q.expiresAt = true :=
      fun e2 h2 => hb e2 (List.mem_cons_of_mem e h2)
    cases e with
    | hello chi now =>
      have hstep : Process.step X ⟨Task.looping q, acc⟩ (Event.hello chi now)
          = ⟨Task.looping q, acc ++ [(now, some c, none)]⟩ := by
        simp only [Process.step, getCertificate_fst, getCertificate_snd, hc]
        simp
      obtain ⟨q2, h1, h2, h3, h4, h5, h6⟩ := ih q (acc ++ [(now, some c, none)]) d ht hc hf2 hb2
      refine ⟨q2, ?_, h2, h3, h4, ?_, ?_⟩
      · show (Process.run X (Process.step X _ _) es).task = _
        rw [hstep]; exact h1
      · simpa [rearmed] using h5
      · show (Process.run X (Process.step X _ _) es).served = _
        rw [hstep, h6]
        simp [answers]
    | wake w =>
      cases w with
      | done => exact absurd hf1 (by simp [Event.failing])
      | timer reply now nowCheck =>
        have hfe : (updateCert X q reply now).isError = true := hf1 q
        have hlt : nowCheck < q.expiresAt := by
          simpa [Event.beforeExpiry] using hb1
        rcases hu : updateCert X q reply now with _ | ⟨err, p1⟩ | _
        · rw [hu] at hfe; cases hfe
        · have hp1 := updateCert_error_state hu
          have hi := renewIteration_of_error nowCheck ht hu
          have hlt1 : nowCheck < p1.expiresAt := by rw [hp1]; exact hlt
          rw [if_pos hlt1] at hi
          have hstep : Process.step X ⟨Task.looping q, acc⟩
              (Event.wake (Wake.timer reply now nowCheck))
              = ⟨Task.looping { p1 with timer := some p1.retryDelay }, acc⟩ := by
            simp only [Process.step, hi]
          have hc1 : ({ p1 with timer := some p1.retryDelay } : pki).cert = some c := by
            rw [hp1]; exact hc
          have he1 : ({ p1 with timer := some p1.retryDelay } : pki).expiresAt = q.expiresAt := by
            rw [hp1]
          have hr1 : ({ p1 with timer := some p1.retryDelay } : pki).retryDelay = q.retryDelay := by
            rw [hp1]
          have hb3 : ∀ e2 ∈ es,
              e2.beforeExpiry ({ p1 with timer := some p1.retryDelay } : pki).expiresAt = true := by
            rw [he1]; exact hb2
          obtain ⟨q2, h1, h2, h3, h4, h5, h6⟩ :=
            ih { p1 with timer := some p1.retryDelay } acc p1.retryDelay rfl hc1 hf2 hb3
          refine ⟨q2, ?_, h2, h3.trans he1, h4.trans hr1, ?_, ?_⟩
          · show (Process.run X (Process.step X _ _) es).task = _
            rw [hstep]; exact h1
          · rw [h5, hr1]
            have hpr : p1.retryDelay = q.retryDelay := by rw [hp1]
            simp [rearmed, hpr]
          · show (Process.run X (Process.step X _ _) es).served = _
            rw [hstep, h6]
            simp [answers]
        · rw [hu] at hfe; cases hfe

/-- C6, as amended: in a run in which the context is not cancelled and every
renewal attempt returns an error, as long as the attempts find the clock before
the stored expiry the process keeps running on the cached record and every
`getCertificate` call, whatever its instant, is answered with that record; at
the first attempt that finds the clock at or after the stored expiry the process
panics with "get certificate retries exceeded", and no call made after that
attempt is answered: the answers of the whole run are those given before it. -/
theorem served_until_fatal_attempt (X : String → String → Except String Certificate)
    (p : pki) (c : CertRef) (pre post : List Event) (reply : Reply) (now nowCheck : Time)
    (d0 : Duration)
    (hc : p.cert = some c)
    (ht : p.timer = some d0)
    (hpre : ∀ e ∈ pre, Event.failing X e)
    (hbefore : ∀ e ∈ pre, e.beforeExpiry p.expiresAt = true)
    (hfail : ∀ q, (updateCert X q reply now).isError = true)
    (hexp : ¬ nowCheck < p.expiresAt) :
    (∃ q, (Process.run X ⟨Task.looping p, []⟩ pre).task = Task.looping q ∧
      q.cert = some c ∧ q.expiresAt = p.expiresAt ∧
      q.timer = some (if rearmed pre = true then p.retryDelay else d0)) ∧
    (Process.run X ⟨Task.looping p, []⟩ pre).served = answers c pre ∧
    (∃ q, (Process.run X ⟨Task.looping p, []⟩
        (pre ++ Event.wake (Wake.timer reply now nowCheck) :: post)).task
      = Task.panicked "get certificate retries exceeded" q) ∧
    (Process.run X ⟨Task.looping p, []⟩
        (pre ++ Event.wake (Wake.timer reply now nowCheck) :: post)).served
      = answers c pre := by
  obtain ⟨q, hq, hqc, hqe, -, hqt, hserved⟩ :=
    Process.run_retrying X c pre p [] d0 ht hc hpre hbefore
  rw [List.nil_append] at hserved
  have hf := hfail q
  rcases hu : updateCert X q reply now with _ | ⟨err, p1⟩ | _
  · rw [hu] at hf; cases hf
  · have hp1 := updateCert_error_state hu
    have hi := renewIteration_of_error nowCheck hqt hu
    have hexp1 : ¬ nowCheck < p1.expiresAt := by
      rw [hp1]
      show ¬ nowCheck < q.expiresAt
      rw [hqe]
      exact hexp
    rw [if_neg hexp1] at hi
    have hstep : Process.step X (Process.run X ⟨Task.looping p, []⟩ pre)
        (Event.wake (Wake.timer reply now nowCheck)) =
        { Process.run X ⟨Task.looping p, []⟩ pre with
          task := Task.panicked "get certificate retries exceeded" p1 } := by
      simp only [Process.step, hq, hi]
    have hrun : Process.run X ⟨Task.looping p, []⟩
        (pre ++ Event.wake (Wake.timer reply now nowCheck) :: post) =
        { Process.run X ⟨Task.looping p, []⟩ pre with
          task := Task.panicked "get certificate retries exceeded" p1 } := by
      rw [Process.run_append]
      show Process.run X (Process.step X _ _) post = _
      rw [hstep, Process.run_panicked X _ post rfl]
    rw [hrun]
    exact ⟨⟨q, hq, hqc, hqe, hqt⟩, hserved, ⟨p1, rfl⟩, hserved⟩
  · rw [hu] at hf; cases hf

theorem outagePrefix_failing : ∀ e ∈ outagePrefix, Event.failing acceptPair e := by
  intro e he
  simp only [outagePrefix, List.mem_cons, List.mem_singleton, List.not_mem_nil, or_false] at he
  rcases he with rfl | rfl
  · intro q; rfl
  · trivial

theorem outagePrefix_beforeExpiry :
    ∀ e ∈ outagePrefix, e.beforeExpiry engine0.expiresAt = true := by
  intro e he
  simp only [outagePrefix, List.mem_cons, List.mem_singleton, List.not_mem_nil, or_false] at he
  rcases he with rfl | rfl
  · decide
  · rfl

/-- Witness of C6 as amended: the outage run on `engine0`, which is on schedule:
a failed attempt at 9 s, a handshake at 20 s, the fatal attempt at 39 s and a
handshake at 45 s. -/
theorem served_until_fatal_attempt_witness :
    engine0.cert = some ⟨0, testCert⟩ ∧
    engine0.timer = some 9000000000 ∧
    (∀ e ∈ outagePrefix, Event.failing acceptPair e) ∧
    (∀ e ∈ outagePrefix, e.beforeExpiry engine0.expiresAt = true) ∧
    (∀ q, (updateCert acceptPair q replyDown 39000000000).isError = true) ∧
    ¬ (39000000000 : Time) < engine0.expiresAt ∧
    Process.onSchedule acceptPair 0 0 engine0
      (outagePrefix ++ Event.wake (Wake.timer replyDown 39000000000 39000000000)
        :: outageSuffix) = true ∧
    ((∃ q, (Process.run acceptPair ⟨Task.looping engine0, []⟩ outagePrefix).task
        = Task.looping q ∧
      q.cert = some ⟨0, testCert⟩ ∧ q.expiresAt = engine0.expiresAt ∧
      q.timer = some (if rearmed outagePrefix = true then engine0.retryDelay
        else 9000000000)) ∧
    (Process.run acceptPair ⟨Task.looping engine0, []⟩ outagePrefix).served
      = answers ⟨0, testCert⟩ outagePrefix ∧
    (∃ q, (Process.run acceptPair ⟨Task.looping engine0, []⟩
        (outagePrefix ++ Event.wake (Wake.timer replyDown 39000000000 39000000000)
          :: outageSuffix)).task
      = Task.panicked "get certificate retries exceeded" q) ∧
    (Process.run acceptPair ⟨Task.looping engine0, []⟩
        (outagePrefix ++ Event.wake (Wake.timer replyDown 39000000000 39000000000)
          :: outageSuffix)).served
      = answers ⟨0, testCert⟩ outagePrefix) :=
  ⟨rfl, rfl, outagePrefix_failing, outagePrefix_beforeExpiry, fun _ => rfl, by decide, rfl,
    served_until_fatal_attempt acceptPair engine0 ⟨0, testCert⟩ outagePrefix outageSuffix
      replyDown 39000000000 39000000000 9000000000 rfl rfl outagePrefix_failing
      outagePrefix_beforeExpiry (fun _ => rfl) (by decide)⟩

/-- C6, as stated, fails. The state `engine0` is what the constructor leaves
after an issuance at instant 0 with a lease of 10 s and the default modifier and
delay: expiry at 10 s, timer armed for 9 s, retry delay 30 s. The attempt at 9 s
fails and rearms the timer for 30 s; a `getCertificate` call at 20 s, ten seconds
after the stored expiry, is answered with the cached record, and the process is
still running. Likewise, once the context is cancelled no attempt is made any
more and the call at 20 s is answered with the cached record. -/
theorem expired_certificate_served :
    NewVaultPKIProvider acceptPair testNewClient configDefaults (Except.ok (some testSecret)) 0
      = Constructed.ok engine0 ∧
    engine0.expiresAt = 10000000000 ∧
    (∀ e ∈ outagePrefix, Event.failing acceptPair e) ∧
    (Process.run acceptPair ⟨Task.looping engine0, []⟩ outagePrefix).served
      = [(20000000000, some ⟨0, testCert⟩, none)] ∧
    (20000000000 : Time) ≥ engine0.expiresAt ∧
    (∃ q, (Process.run acceptPair ⟨Task.looping engine0, []⟩ outagePrefix).task = Task.looping q ∧
      q.timer = some 30000000000) ∧
    Process.onSchedule acceptPair 0 0 engine0 outagePrefix = true ∧
    (Process.run acceptPair ⟨Task.looping engine0, []⟩ cancelledRun).served
      = [(20000000000, some ⟨0, testCert⟩, none)] := by
  have hnew : NewVaultPKIProvider acceptPair testNewClient configDefaults
      (Except.ok (some testSecret)) 0 = Constructed.ok engine0 := by
    rw [NewVaultPKIProvider_testClient acceptPair configDefaults _ 0 (by decide) rfl,
      updateCert_ok acceptPair _ testSecret 0 testData_issuing_ca testData_certificate
        testData_private_key rfl]
    have hm : (if configDefaults.RenewModifier = 0 then f32_0_95
        else configDefaults.RenewModifier) = f32_0_95 := by
      simp [configDefaults]
    have hr : renewAfter testSecret.LeaseDuration f32_0_95 = 9 := renewAfter_10_0_95
    simp only [hm, hr]
    rfl
  exact ⟨hnew, rfl, outagePrefix_failing, rfl, by decide, ⟨_, rfl, rfl⟩, rfl, rfl⟩

/-- The two ways in which an iteration of the background task ends the process:
`updateCert` itself panics, or it returns an error and the clock is not before
the stored expiry. -/
theorem renewIteration_panicked_iff (X : String → String → Except String Certificate) (p : pki)
    (reply : Reply) (now nowCheck : Time) (d0 : Duration) (ht : p.timer = some d0) :
    (∃ msg q, renewIteration X p (Wake.timer reply now nowCheck) = Task.panicked msg q) ↔
      ((∃ msg q, updateCert X p reply now = Step.panic msg q) ∨
        (∃ e q, updateCert X p reply now = Step.error e q ∧ ¬ nowCheck < p.expiresAt)) := by
  rcases hu : updateCert X p reply now with ⟨d, p1⟩ | ⟨err, p1⟩ | ⟨msg, p1⟩
  · rw [renewIteration_of_ok nowCheck ht hu]
    simp
  · have hp1 := updateCert_error_state hu
    have he : p1.expiresAt = p.expiresAt := by rw [hp1]
    rw [renewIteration_of_error nowCheck ht hu, he]
    by_cases h : nowCheck < p.expiresAt
    · rw [if_pos h]
      simp [h]
    · rw [if_neg h]
      simp [h]
  · rw [renewIteration_of_panic nowCheck ht hu]
    simp

end vac
